import Mathlib

/-!
Verification development for the needle audiobook reader core.

The definitions below are a shallow embedding of the Python sources:

* `app/core/reader.py` — `OpenAISynthTranscriber._break_into_sentences`,
  `OpenAISynthTranscriber._convert_paragraph_text_to_buffers`,
  `OpenAISynthTranscriber._convert_page_to_buffered_text`,
  `OpenAISynthTranscriber.synthesize_page_audio`,
  `ConcreteNarrator.load_audio_for_timestamp`, `ConcreteNarrator.scrub`,
  `ConcreteNarrator.get_current_position`, `ConcreteNarrator.interrupt`;
* `app/core/upload_processing.py` — `audio_entire_book`;
* `app/db/database.py` — `get_pages_from_book`, `save_page_audio`,
  `get_audio_chunk_for_timestamp`, `update_reading_position`.

Python strings are modeled as Lean `String` (with character-list based
implementations of the Python-specific primitives `str.strip`, `str.split(' ')`
and `re.split(r'([.!?]+)\s+', ...)`), floats as `ℚ`, audio byte strings as
`List ℕ`, and database rows as structures.  While-loops are modeled either by
structural recursion (the inner pop-loops, which consume their list) or by an
explicit fuel parameter (the outer segmentation loop, whose progress argument
is nontrivial); a fueled function returns `none` when the fuel runs out, so a
`some` result is exactly a terminating run of the source loop.
-/

/-! ## Text primitives (Python `str` operations) -/

/-- The set of sentence-final punctuation characters of
`re.split(r'([.!?]+)\s+', text)` in `_break_into_sentences`. -/
def punctChar (c : Char) : Bool :=
  c = '.' || c = '!' || c = '?'

/-- Python whitespace as tested by `str.strip()` and by the regex class
`\s` (restricted to the ASCII whitespace actually used by the repository's
text: space, tab, carriage return, line feed). -/
def pyWhitespace (c : Char) : Bool :=
  c.isWhitespace

/-- Model of Python `str.strip()` on character lists: drop whitespace from
both ends. -/
def stripChars (l : List Char) : List Char :=
  ((l.dropWhile pyWhitespace).reverse.dropWhile pyWhitespace).reverse

/-- Model of Python `str.strip()`. -/
def pyStrip (s : String) : String :=
  String.mk (stripChars s.data)

/-- Helper for `pySplitSpace`: split a character list at every single space
character, keeping empty fields, exactly like Python `str.split(' ')`. -/
def splitSpaceAux (acc : List Char) : List Char → List (List Char)
  | [] => [acc.reverse]
  | c :: rest =>
    if c = ' ' then acc.reverse :: splitSpaceAux [] rest
    else splitSpaceAux (c :: acc) rest

/-- Model of Python `str.split(' ')` (separator given, so empty fields are
kept). -/
def pySplitSpace (s : String) : List String :=
  (splitSpaceAux [] s.data).map String.mk

/-- Model of Python `' '.join(...)`. -/
def joinSpace (l : List String) : String :=
  String.intercalate " " l

/-! ## `_break_into_sentences` (reader.py lines 110-121) -/

/-- The marker string `###ELLIPSIS###` used by `_break_into_sentences` to
protect ellipses from the sentence splitter. -/
def ellipsisMarker : List Char :=
  "###ELLIPSIS###".data

/-- Model of `text.replace('...', '###ELLIPSIS###')`: leftmost,
non-overlapping replacement. -/
def replaceEllipsis : List Char → List Char
  | '.' :: '.' :: '.' :: rest => ellipsisMarker ++ replaceEllipsis rest
  | c :: rest => c :: replaceEllipsis rest
  | [] => []

/-- Model of `s.replace('###ELLIPSIS###', '...')`. -/
def restoreEllipsis : List Char → List Char
  | '#' :: '#' :: '#' :: 'E' :: 'L' :: 'L' :: 'I' :: 'P' :: 'S' :: 'I' :: 'S' ::
      '#' :: '#' :: '#' :: rest => '.' :: '.' :: '.' :: restoreEllipsis rest
  | c :: rest => c :: restoreEllipsis rest
  | [] => []

/-- Length bound for `List.takeWhile`, used for the termination argument of
the sentence splitter. -/
theorem takeWhileLengthLe (p : Char → Bool) :
    ∀ l : List Char, (l.takeWhile p).length ≤ l.length := by
  intro l
  induction l with
  | nil => simp
  | cons c rest ih =>
    by_cases h : p c
    · simp [List.takeWhile_cons, h]
      omega
    · simp [List.takeWhile_cons, h]

/-- Model of `re.split(r'([.!?]+)\s+', text)`.  A match is a maximal run of
sentence punctuation followed by at least one whitespace character (both
greedy); the result interleaves the text pieces between matches with the
captured punctuation runs, starting and ending with a (possibly empty) text
piece.  `acc` holds the current text piece reversed. -/
def splitSentAux (acc : List Char) : List Char → List (List Char)
  | [] => [acc.reverse]
  | c :: rest =>
    if punctChar c then
      let run := rest.takeWhile punctChar
      let after := rest.drop run.length
      let ws := after.takeWhile pyWhitespace
      if ws.isEmpty then
        splitSentAux (run.reverse ++ c :: acc) after
      else
        acc.reverse :: (c :: run) :: splitSentAux [] (after.drop ws.length)
    else
      splitSentAux (c :: acc) rest
  termination_by l => l.length
  decreasing_by
  · simp only [List.length_drop, List.length_cons]
    have := takeWhileLengthLe punctChar rest
    omega
  · simp only [List.length_drop, List.length_cons]
    have h1 := takeWhileLengthLe punctChar rest
    have h2 := takeWhileLengthLe pyWhitespace (rest.drop (rest.takeWhile punctChar).length)
    simp only [List.length_drop] at h2
    omega
  · simp

/-- Model of the list comprehension
`[''.join(sentences[i:i+2]) for i in range(0, len(sentences)-1, 2)]`: glue
the interleaved pieces and delimiters back into sentences, pairwise.  On the
odd-length output of `re.split` this always discards the final text piece
(the text after the last sentence delimiter), unless that piece pairs with a
delimiter, which never happens. -/
def recombinePairs : List (List Char) → List (List Char)
  | p :: d :: rest => (p ++ d) :: recombinePairs rest
  | _ => []

/-- Model of
`if sentences and sentences[-1][-1] not in '.!?': sentences[-1] += '.'`. -/
def addFinalPeriod (sents : List (List Char)) : List (List Char) :=
  match sents.getLast? with
  | none => sents
  | some last =>
    match last.getLast? with
    | some ch => if punctChar ch then sents else sents.dropLast ++ [last ++ ['.']]
    | none => sents

/-- Model of `OpenAISynthTranscriber._break_into_sentences`
(reader.py lines 110-121). -/
def break_into_sentences (text : String) : List String :=
  let protected_ := replaceEllipsis text.data
  let parts := splitSentAux [] protected_
  let sents := recombinePairs parts
  let sents := addFinalPeriod sents
  sents.map (fun s => String.mk (restoreEllipsis s))

/-! ## `_convert_paragraph_text_to_buffers` (reader.py lines 123-191) -/

/-- The synthesis-provider character limit `self.MAX_CHARS` (reader.py
line 108). -/
def MAX_CHARS : ℕ :=
  4096

/-- The `while sentences:` pop-loop of `process_sentences` (reader.py lines
139-146): greedily append whole sentences (plus `"\n"`) to the buffer while
the result stays within `maxChars`; stop at the first sentence that does not
fit, pushing it back. -/
def processSentencesLoop (maxChars : ℕ) (didFit : Bool) (buf : String) :
    List String → Bool × String × List String
  | [] => (didFit, buf, [])
  | s :: rest =>
    if (buf ++ s ++ "\n").length ≤ maxChars then
      processSentencesLoop maxChars true (buf ++ s ++ "\n") rest
    else
      (didFit, buf, s :: rest)

/-- Model of the inner function `process_sentences` (reader.py lines
136-147). -/
def process_sentences (maxChars : ℕ) (buf : String) (paragraph_chunk : String) :
    Bool × String × List String :=
  processSentencesLoop maxChars false buf (break_into_sentences paragraph_chunk)

/-- The `while words:` pop-loop of `process_words` (reader.py lines 152-158):
greedily append words (plus `" "`) to the buffer while the result stays
within `maxChars`. -/
def processWordsLoop (maxChars : ℕ) (buf : String) :
    List String → String × List String
  | [] => (buf, [])
  | w :: ws =>
    if (buf ++ w ++ " ").length ≤ maxChars then
      processWordsLoop maxChars (buf ++ w ++ " ") ws
    else
      (buf, w :: ws)

/-- Model of the inner function `process_words` (reader.py lines 150-160):
split the first sentence on spaces, fill the buffer word by word, and put the
recombined leftover words back in front of the remaining sentences. -/
def process_words (maxChars : ℕ) (buf : String) (first : String)
    (rest : List String) : String × List String :=
  let r := processWordsLoop maxChars buf (pySplitSpace first)
  (r.1, joinSpace r.2 :: rest)

/-- Model of the inner function `flush_buffer` (reader.py lines 130-134): if
the stripped buffer is non-empty, append it to the output and clear the
buffer; otherwise leave both untouched. -/
def flush_buffer (buf : String) (sized : List String) : String × List String :=
  if (pyStrip buf).data.isEmpty then (buf, sized)
  else ("", sized ++ [pyStrip buf])

/-- The optimistic whole-paragraph pop-loop (reader.py lines 174-176):
`while unprocessed_chunks and len(current_buffer + (chunk:=pop(0)) + "\n") <= MAX_CHARS`.
Returns the buffer, the `paragraph_processed` flag, the chunk that was popped
by the walrus assignment but failed the length test (if any), and the
remaining work list. -/
def paraLoop (maxChars : ℕ) (buf : String) (processed : Bool) :
    List String → String × Bool × Option String × List String
  | [] => (buf, processed, none, [])
  | c :: rest =>
    if (buf ++ c ++ "\n").length ≤ maxChars then
      paraLoop maxChars (buf ++ c ++ "\n") true rest
    else
      (buf, processed, some c, rest)

/-- The outer `while unprocessed_chunks:` loop of
`_convert_paragraph_text_to_buffers` (reader.py lines 171-191), with an
explicit fuel parameter; `none` means the fuel ran out before the source loop
finished.  Note two behaviours of the source faithfully reproduced here:
a chunk popped by the walrus assignment is dropped when `paragraph_processed`
is already true, and sentences left over after some sentences fit are dropped
(they are only re-inserted on the `process_words` path). -/
def segmentLoop (maxChars : ℕ) :
    ℕ → List String → String → List String → Option (List String)
  | 0, _, _, _ => none
  | _ + 1, [], buf, sized =>
    let r := flush_buffer buf sized
    some (if r.2.isEmpty then [""] else r.2)
  | fuel + 1, c0 :: rest0, buf, sized =>
    let r := paraLoop maxChars buf false (c0 :: rest0)
    match r.2.2.1 with
    | none =>
      let f := flush_buffer r.1 sized
      segmentLoop maxChars fuel r.2.2.2 f.1 f.2
    | some chunk =>
      if r.2.1 then
        let f := flush_buffer r.1 sized
        segmentLoop maxChars fuel r.2.2.2 f.1 f.2
      else
        let ps := process_sentences maxChars r.1 chunk
        match ps.2.2, ps.1 with
        | s :: restS, false =>
          let pw := process_words maxChars ps.2.1 s restS
          let remainder := joinSpace pw.2
          let f := flush_buffer pw.1 sized
          segmentLoop maxChars fuel (remainder :: r.2.2.2) f.1 f.2
        | _, _ =>
          let f := flush_buffer ps.2.1 sized
          segmentLoop maxChars fuel r.2.2.2 f.1 f.2

/-- Model of `OpenAISynthTranscriber._convert_paragraph_text_to_buffers`
(reader.py lines 123-191). -/
def convert_paragraph_text_to_buffers (fuel : ℕ) (paragraphed_text : List String) :
    Option (List String) :=
  segmentLoop MAX_CHARS fuel paragraphed_text "" []

/-! ## Data model (app/models/models.py, restricted to the fields the core
reads and writes) -/

/-- Model of the `Book` row (`models.py`): only `id` and `total_pages` are
consumed by the functions under verification. -/
structure Book where
  id : ℕ
  totalPages : ℕ
deriving DecidableEq

/-- Model of the `Page` row (`models.py`): identifier, owning book, page
number, chapter label, paragraph text, and the three audio columns written
by `save_page_audio`.  Audio byte strings are modeled as `List ℕ`. -/
structure PageRow where
  id : ℕ
  bookId : ℕ
  pageNumber : ℕ
  chapter : Option String
  paragraphedText : List String
  audioBlob : Option (List ℕ)
  audioDuration : Option ℚ
  audioStartOffset : Option ℚ
deriving DecidableEq

/-- Model of the `AudioChunk` row (`models.py`) as consumed by
`get_audio_chunk_for_timestamp` and the narrator. -/
structure AudioChunk where
  bookId : ℕ
  startTimestamp : ℚ
  endTimestamp : ℚ
  startPage : ℕ
  endPage : ℕ
deriving DecidableEq

/-- The position dictionary built by `ConcreteNarrator.get_current_position`
(reader.py lines 78-82): `{'page': ..., 'timestamp': ..., 'total_duration': ...}`. -/
structure Position where
  page : ℕ
  timestamp : ℚ
  total_duration : ℚ
deriving DecidableEq

/-- Model of the `UserBookState` row: `cursor_position` is `some p` once a
position dictionary has been written by `update_reading_position`, and `none`
while it still holds the unrelated ingestion-time cursor dictionary. -/
structure UserBookState where
  userId : ℕ
  bookId : ℕ
  cursorPosition : Option Position
deriving DecidableEq

/-- Model of the mutable state of a `ConcreteNarrator`
(reader.py lines 33-41): the book, the `audio_buffer` dict (an
insertion-ordered association list of timestamp keys to audio bytes, exactly
like a Python dict), and `current_timestamp`. -/
structure NarratorState where
  bookId : ℕ
  audioBuffer : List (ℚ × List ℕ)
  currentTimestamp : ℚ
deriving DecidableEq

/-! ## Database functions (app/db/database.py) -/

/-- Model of `get_pages_from_book` (database.py lines 109-139).  The row list
`pagesDb` is kept in ascending `page_number` order by convention (theorems
about ordering carry an explicit sortedness hypothesis), which makes the
query's `ORDER BY page_number` the identity, so the function is the filter
with the `pages_to_fetch` arithmetic of the source (over `ℤ`, since Python
integers may go negative here). -/
def get_pages_from_book (books : List Book) (pagesDb : List PageRow)
    (book_id : ℕ) (start_page : ℕ) (num_pages : ℤ) : List PageRow :=
  match books.find? (fun b => b.id == book_id) with
  | none => []
  | some book =>
    let pages_remaining : ℤ := (book.totalPages : ℤ) - start_page + 1
    let pages_to_fetch : ℤ := min num_pages pages_remaining
    if pages_to_fetch ≤ 0 then []
    else
      pagesDb.filter (fun p =>
        p.bookId == book_id && start_page ≤ p.pageNumber &&
          decide ((p.pageNumber : ℤ) < start_page + pages_to_fetch))

/-- Model of `get_audio_chunk_for_timestamp` (database.py lines 219-240):
the chunk of the book whose `[start_timestamp, end_timestamp)` interval
contains the timestamp, together with the relative position inside it. -/
def get_audio_chunk_for_timestamp (chunks : List AudioChunk) (book_id : ℕ)
    (timestamp : ℚ) : Option AudioChunk × ℚ :=
  match chunks.find? (fun c =>
      c.bookId == book_id && decide (c.startTimestamp ≤ timestamp) &&
        decide (timestamp < c.endTimestamp)) with
  | none => (none, 0)
  | some chunk => (some chunk, timestamp - chunk.startTimestamp)

/-- Model of `update_reading_position` (database.py lines 202-217): overwrite
the cursor position of the `(user, book)` state row when it exists, leave
everything else unchanged. -/
def update_reading_position (states : List UserBookState) (user_id : ℕ)
    (book_id : ℕ) (position : Position) : List UserBookState :=
  states.map (fun st =>
    if st.userId == user_id && st.bookId == book_id then
      { st with cursorPosition := some position }
    else st)

/-- The `prev_pages` query of `save_page_audio` (database.py lines 266-279):
same book, same chapter, strictly smaller page number, ordered by page
number, of which the source takes the last element; this is the entry with
the greatest page number, computed by the fold `maxByPageNumber`. -/
def maxStep (acc : Option PageRow) (q : PageRow) : Option PageRow :=
  match acc with
  | none => some q
  | some r => if r.pageNumber ≤ q.pageNumber then some q else some r

def maxByPageNumber (l : List PageRow) : Option PageRow :=
  l.foldl maxStep none

/-- The result row of the `prev_pages` query consumed by `save_page_audio`:
last element of the ordered query, i.e. the page of greatest page number
among the same-book, same-chapter pages of smaller page number. -/
def lastPrevPage (pagesDb : List PageRow) (page : PageRow) : Option PageRow :=
  maxByPageNumber (pagesDb.filter (fun q =>
    q.bookId == page.bookId && q.chapter == page.chapter &&
      decide (q.pageNumber < page.pageNumber)))

/-- Model of `save_page_audio` (database.py lines 242-282): look the page up
by id (raising when absent), write blob, duration and the passed chapter
offset, except that a passed offset equal to `0.0` is replaced by the end
offset (`audio_start_offset or 0.0` plus `audio_duration or 0.0`) of the last
earlier page of the same book and chapter, when such a page exists. -/
def save_page_audio (pagesDb : List PageRow) (audio_bytes : List ℕ)
    (page_id : ℕ) (duration : ℚ) (chapter_offset : ℚ) :
    Except String (List PageRow) :=
  match pagesDb.find? (fun q => q.id == page_id) with
  | none => .error "Page not found"
  | some page =>
    let offset :=
      if chapter_offset = 0 then
        match lastPrevPage pagesDb page with
        | some lastPg => lastPg.audioStartOffset.getD 0 + lastPg.audioDuration.getD 0
        | none => chapter_offset
      else chapter_offset
    .ok (pagesDb.map (fun q =>
      if q.id == page_id then
        { q with audioBlob := some audio_bytes, audioDuration := some duration,
                 audioStartOffset := some offset }
      else q))

/-! ## Page-to-buffer conversion and page synthesis (reader.py lines 193-210) -/

/-- Model of `OpenAISynthTranscriber._convert_page_to_buffered_text`
(reader.py lines 193-195): note the source reverses the paragraph list
(`page.paragraphed_text[::-1]`) before handing it to the segmenter, which
pops from the front. -/
def convert_page_to_buffered_text (fuel : ℕ) (page : PageRow) :
    Option (List String) :=
  convert_paragraph_text_to_buffers fuel page.paragraphedText.reverse

/-- Model of `OpenAISynthTranscriber.synthesize_page_audio`
(reader.py lines 205-210), with the external text-to-speech call
`_convert_text_to_audio` abstracted as the function `tts`: synthesize each
buffer in order and concatenate the returned bytes. -/
def synthesize_page_audio (tts : String → List ℕ) (fuel : ℕ) (page : PageRow) :
    Option (List ℕ) :=
  (convert_page_to_buffered_text fuel page).map
    (fun buffers => buffers.foldl (fun acc b => acc ++ tts b) [])

/-! ## Book audio pipeline (upload_processing.py lines 75-120) -/

/-- State threaded through the page loop of `audio_entire_book`: the page
table, `current_chapter` and `chapter_offset`. -/
structure PipeState where
  db : List PageRow
  currentChapter : Option String
  chapterOffset : ℚ
deriving DecidableEq

/-- One iteration of the `for page in pages:` loop of `audio_entire_book`
(upload_processing.py lines 89-120), with the page-level synthesis call
abstracted as `synth` (it stands for `synth.synthesize_page_audio(page)`,
whose failure is the `except` clause's concern).  Chapter tracking happens
before the `try` block; on any exception inside the block the state advances
to the next page unchanged (the `continue`), so a failed page neither
persists audio nor advances the chapter offset. -/
def pipeStep (synth : PageRow → Except String (List ℕ)) (st : PipeState)
    (page : PageRow) : PipeState :=
  let st1 :=
    if page.chapter ≠ st.currentChapter then
      { st with currentChapter := page.chapter, chapterOffset := 0 }
    else st
  match synth page with
  | .error _ => st1
  | .ok audio_bytes =>
    let duration : ℚ := (audio_bytes.length : ℚ) / 32000
    match save_page_audio st1.db audio_bytes page.id duration st1.chapterOffset with
    | .error _ => st1
    | .ok db' => { st1 with db := db', chapterOffset := st1.chapterOffset + duration }

/-- Model of `audio_entire_book` (upload_processing.py lines 75-120): fetch
every page of the book (`get_pages_from_book(book_id, 0, 999999)`) and fold
the page loop over them.  Every exception raised inside the loop body is
caught by its `except` clause and turns into a `continue`; no statement
outside the `try` block raises, so the function always returns `.ok`. -/
def audio_entire_book (books : List Book) (pagesDb : List PageRow)
    (synth : PageRow → Except String (List ℕ)) (book_id : ℕ) :
    Except String (List PageRow) :=
  let pages := get_pages_from_book books pagesDb book_id 0 999999
  .ok (pages.foldl (pipeStep synth) ⟨pagesDb, none, 0⟩).db

/-! ## Narrator (reader.py lines 33-100) -/

/-- Assignment `self.audio_buffer[current_timestamp] = page.audio_blob` on
the Python dict: overwrite in place when the key exists, append otherwise
(Python dicts preserve insertion order and keep the original position on
overwrite). -/
def dictInsert (buf : List (ℚ × List ℕ)) (k : ℚ) (v : List ℕ) :
    List (ℚ × List ℕ) :=
  if buf.any (fun e => e.1 == k) then
    buf.map (fun e => if e.1 == k then (e.1, v) else e)
  else buf ++ [(k, v)]

/-- The `for page in pages:` buffer-building loop of
`load_audio_for_timestamp` (reader.py lines 64-69): pages with a (non-empty,
by Python truthiness) audio blob are inserted into the buffer keyed by the
running timestamp, the chunk whose interval contains the requested timestamp
is remembered, and the running timestamp advances by the page's duration. -/
def loadBufferLoop (timestamp : ℚ) :
    List PageRow → List (ℚ × List ℕ) → ℚ → List ℕ →
      List (ℚ × List ℕ) × List ℕ
  | [], buf, _, chosen => (buf, chosen)
  | p :: rest, buf, ct, chosen =>
    match p.audioBlob with
    | none => loadBufferLoop timestamp rest buf ct chosen
    | some blob =>
      if blob.isEmpty then loadBufferLoop timestamp rest buf ct chosen
      else
        let dur := p.audioDuration.getD 0
        let buf' := dictInsert buf ct blob
        let chosen' := if ct ≤ timestamp ∧ timestamp < ct + dur then blob else chosen
        loadBufferLoop timestamp rest buf' (ct + dur) chosen'

/-- Parameter count of `get_audio_chunk_for_timestamp` as defined at
database.py line 219: `(book_id, timestamp)`. -/
def get_audio_chunk_param_count : ℕ := 2

/-- The call `get_audio_chunk_for_timestamp(db, self.book_id, timestamp)` as
written at reader.py lines 46 and 76: three positional arguments are handed
to the two-parameter function (database.py line 219), and Python checks the
argument count against the parameter list before the callee body runs, so
the call raises `TypeError` unconditionally. -/
def get_audio_chunk_call3 (chunks : List AudioChunk) (book_id : ℕ)
    (timestamp : ℚ) : Except String (Option AudioChunk × ℚ) :=
  if 3 = get_audio_chunk_param_count then
    .ok (get_audio_chunk_for_timestamp chunks book_id timestamp)
  else
    .error "TypeError: get_audio_chunk_for_timestamp() takes 2 positional arguments but 3 were given"

/-- The body of `ConcreteNarrator.load_audio_for_timestamp` (reader.py lines
43-71) from the point the line-46 lookup would have returned: resolve the
chunk covering the timestamp (raising `ValueError` when there is none),
update `current_timestamp`, fetch the surrounding page window (`back` 1,
`forward` 2), and build the audio buffer.  Under the actual arity of the
line-46 call this body is dead code — the run as executed is
`load_audio_for_timestamp_run` below; this definition is kept separately as
the model of the body that `scrub`'s miss path falls through to. -/
def load_audio_for_timestamp (chunks : List AudioChunk) (books : List Book)
    (pagesDb : List PageRow) (nar : NarratorState) (timestamp : ℚ) :
    Except String (NarratorState × List ℕ) :=
  match (get_audio_chunk_for_timestamp chunks nar.bookId timestamp).1 with
  | none => .error "No audio chunk found for timestamp"
  | some chunk =>
    let nar1 := { nar with currentTimestamp := timestamp }
    let start_page := max 1 (chunk.startPage - 1)
    let end_page := chunk.endPage + 2
    let pages := get_pages_from_book books pagesDb nar.bookId start_page
      ((end_page : ℤ) - start_page + 1)
    let r := loadBufferLoop timestamp pages nar1.audioBuffer 0 []
    .ok ({ nar1 with audioBuffer := r.1 }, r.2)

/-- Model of a run of `ConcreteNarrator.load_audio_for_timestamp`
(reader.py lines 43-71) as actually executed: the line-46 call passes three
positional arguments (`db`, `self.book_id`, `timestamp`) to the
two-parameter `get_audio_chunk_for_timestamp`, so every run raises
`TypeError` there — before `current_timestamp` is updated or any entry is
inserted into `audio_buffer`; the rest of the body (modeled by
`load_audio_for_timestamp`) is never reached. -/
def load_audio_for_timestamp_run (chunks : List AudioChunk)
    (books : List Book) (pagesDb : List PageRow) (nar : NarratorState)
    (timestamp : ℚ) : Except String (NarratorState × List ℕ) :=
  match get_audio_chunk_call3 chunks nar.bookId timestamp with
  | .error e => .error e
  | .ok _ => load_audio_for_timestamp chunks books pagesDb nar timestamp

/-- Model of `ConcreteNarrator.get_current_position` (reader.py lines
73-83), including the arity of the line-76 call: three positional arguments
are passed to the two-parameter `get_audio_chunk_for_timestamp`, so the
method raises `TypeError` on every call; the body that would resolve
`self.current_timestamp` (not any caller-supplied timestamp) to a position
dictionary, or `None` when no chunk covers it, is dead code. -/
def get_current_position_run (chunks : List AudioChunk) (nar : NarratorState) :
    Except String (Option Position) :=
  match get_audio_chunk_call3 chunks nar.bookId nar.currentTimestamp with
  | .error e => .error e
  | .ok r =>
    match r.1 with
    | some chunk =>
      .ok (some { page := chunk.startPage, timestamp := nar.currentTimestamp,
                  total_duration := chunk.endTimestamp })
    | none => .ok none

/-- Model of `ConcreteNarrator.interrupt` (reader.py lines 85-89): call
`get_current_position()` — which raises on every call, see
`get_current_position_run` — and persist the result when it is not `None`.
`interrupt` has no exception handler, so the `TypeError` propagates and
`update_reading_position` is never reached.  The `timestamp` parameter is
accepted but never read by the source. -/
def interrupt_run (chunks : List AudioChunk) (states : List UserBookState)
    (nar : NarratorState) (timestamp : ℚ) (user_id : ℕ) :
    Except String (List UserBookState) :=
  match get_current_position_run chunks nar with
  | .error e => .error e
  | .ok (some position) =>
    .ok (update_reading_position states user_id nar.bookId position)
  | .ok none => .ok states

/-- Model of `ConcreteNarrator.scrub` (reader.py lines 91-100): scan the
buffer for an entry whose `[key, key + len(audio)/44100)` interval contains
the timestamp and return its audio; otherwise fall through to
`load_audio_for_timestamp` (the persistence path). -/
def scrub (chunks : List AudioChunk) (books : List Book)
    (pagesDb : List PageRow) (nar : NarratorState) (timestamp : ℚ) :
    Except String (NarratorState × List ℕ) :=
  match nar.audioBuffer.find? (fun e =>
      decide (e.1 ≤ timestamp) &&
        decide (timestamp < e.1 + (e.2.length : ℚ) / 44100)) with
  | some e => .ok (nar, e.2)
  | none => load_audio_for_timestamp chunks books pagesDb nar timestamp

/-! ## Specification-side helper definitions for the pipeline theorems -/

/-- Whether the abstract page-level synthesis call succeeds on a page. -/
def synthOk (synth : PageRow → Except String (List ℕ)) (p : PageRow) : Bool :=
  match synth p with
  | .ok _ => true
  | .error _ => false

/-- The audio produced for a page by a successful synthesis call (junk on
failure). -/
def synthAudio (synth : PageRow → Except String (List ℕ)) (p : PageRow) :
    List ℕ :=
  match synth p with
  | .ok a => a
  | .error _ => []

/-- The duration `len(audio_bytes) / 32000` the pipeline computes for a page
(zero for a failed page, which contributes nothing to any offset). -/
def durOf (synth : PageRow → Except String (List ℕ)) (p : PageRow) : ℚ :=
  match synth p with
  | .ok a => (a.length : ℚ) / 32000
  | .error _ => 0

/-- Sum of the durations of the successfully synthesized pages of a list
that carry the given chapter label. -/
def chSum (synth : PageRow → Except String (List ℕ)) (l : List PageRow)
    (ch : Option String) : ℚ :=
  ((l.filter (fun q => synthOk synth q && q.chapter == ch)).map
    (durOf synth)).sum

/-- The page row as it should look after the pipeline has processed the
pages `done` (in order): a page of `done` whose synthesis succeeded carries
its audio, its duration, and a chapter offset equal to the duration sum of
the earlier succeeded pages of its chapter; every other page is untouched. -/
def expectedEntry (synth : PageRow → Except String (List ℕ))
    (done : List PageRow) (q : PageRow) : PageRow :=
  if done.any (fun r => r.id == q.id) && synthOk synth q then
    { q with audioBlob := some (synthAudio synth q),
             audioDuration := some (durOf synth q),
             audioStartOffset :=
               some (chSum synth (done.takeWhile (fun r => r.id ≠ q.id)) q.chapter) }
  else q

/-- The chapter label the pipeline's `current_chapter` variable holds after
processing the pages `done`: that of the last processed page, or `None`
before the first page (a page whose own label is `None` is
indistinguishable from the initial state, exactly as in the source). -/
def lastChapter (done : List PageRow) : Option String :=
  match done.getLast? with
  | some q => q.chapter
  | none => none

/-- Contiguity of the chapter labels of a page list: between two pages with
equal labels, every page carries that same label (i.e. each chapter label
occupies a single contiguous block).  Stated over bounded indices so that it
is decidable on concrete lists. -/
def ChaptersContiguous (l : List PageRow) (dummy : PageRow) : Prop :=
  ∀ k, k < l.length → ∀ j, j < k → ∀ i, i < j →
    (l.getD i dummy).chapter = (l.getD k dummy).chapter →
    (l.getD j dummy).chapter = (l.getD i dummy).chapter

instance (l : List PageRow) (dummy : PageRow) :
    Decidable (ChaptersContiguous l dummy) := by
  unfold ChaptersContiguous
  infer_instance

/-! ## Concrete example data used by witnesses and counterexamples -/

/-- Three fresh pages of one book, none of them carrying audio yet. -/
def c6pages : List PageRow :=
  [{ id := 0, bookId := 0, pageNumber := 0, chapter := none, paragraphedText := [],
     audioBlob := none, audioDuration := none, audioStartOffset := none },
   { id := 1, bookId := 0, pageNumber := 1, chapter := none, paragraphedText := [],
     audioBlob := none, audioDuration := none, audioStartOffset := none },
   { id := 2, bookId := 0, pageNumber := 2, chapter := none, paragraphedText := [],
     audioBlob := none, audioDuration := none, audioStartOffset := none }]

/-- A synthesis stub that fails exactly on the page with id 1. -/
def c6synth : PageRow → Except String (List ℕ) :=
  fun p => if p.id = 1 then .error "boom" else .ok [5]

/-- A throwaway page row used as the `getD` default in bounded-index
statements. -/
def dummyPage : PageRow :=
  { id := 0, bookId := 0, pageNumber := 0, chapter := none, paragraphedText := [],
    audioBlob := none, audioDuration := none, audioStartOffset := none }

/-- Four fresh pages whose chapter labels read A, B, A, A — the label A
occupies two non-contiguous blocks. -/
def c9pages : List PageRow :=
  [{ id := 0, bookId := 0, pageNumber := 0, chapter := some "A", paragraphedText := [],
     audioBlob := none, audioDuration := none, audioStartOffset := none },
   { id := 1, bookId := 0, pageNumber := 1, chapter := some "B", paragraphedText := [],
     audioBlob := none, audioDuration := none, audioStartOffset := none },
   { id := 2, bookId := 0, pageNumber := 2, chapter := some "A", paragraphedText := [],
     audioBlob := none, audioDuration := none, audioStartOffset := none },
   { id := 3, bookId := 0, pageNumber := 3, chapter := some "A", paragraphedText := [],
     audioBlob := none, audioDuration := none, audioStartOffset := none }]

/-- A synthesis stub that succeeds on every page with a one-byte blob, so
every page has duration `1/32000`. -/
def c9synth : PageRow → Except String (List ℕ) :=
  fun _ => .ok [7]

/-- The table `audio_entire_book` actually produces on `c9pages` with
`c9synth`: page 3's persisted offset is `1/32000` (the accumulator since the
last chapter change), not the `2/32000` sum of durations of the previously
succeeded chapter-A pages (pages 0 and 2) of the run. -/
def c9expected : List PageRow :=
  [{ id := 0, bookId := 0, pageNumber := 0, chapter := some "A", paragraphedText := [],
     audioBlob := some [7], audioDuration := some (1/32000), audioStartOffset := some 0 },
   { id := 1, bookId := 0, pageNumber := 1, chapter := some "B", paragraphedText := [],
     audioBlob := some [7], audioDuration := some (1/32000), audioStartOffset := some 0 },
   { id := 2, bookId := 0, pageNumber := 2, chapter := some "A", paragraphedText := [],
     audioBlob := some [7], audioDuration := some (1/32000), audioStartOffset := some (1/32000) },
   { id := 3, bookId := 0, pageNumber := 3, chapter := some "A", paragraphedText := [],
     audioBlob := some [7], audioDuration := some (1/32000), audioStartOffset := some (1/32000) }]

/-- Two fresh same-chapter pages (contiguous labels), used as the witness
scenario for the amended chapter-offset claim. -/
def c9contigPages : List PageRow :=
  [{ id := 0, bookId := 0, pageNumber := 0, chapter := some "A", paragraphedText := [],
     audioBlob := none, audioDuration := none, audioStartOffset := none },
   { id := 1, bookId := 0, pageNumber := 1, chapter := some "A", paragraphedText := [],
     audioBlob := none, audioDuration := none, audioStartOffset := none }]

/-! ## Theorems

General-purpose lemmas come first, then for each claim of the specification
one theorem (with, where needed, a counterexample theorem and a witness). -/

/-- `splitSentAux` on a list free of punctuation and whitespace accumulates
everything into a single piece. -/
theorem splitSentAux_replicate_B (n : ℕ) :
    ∀ acc, splitSentAux acc (List.replicate n 'B') =
      [acc.reverse ++ List.replicate n 'B'] := by
  induction n with
  | zero => intro acc; simp [splitSentAux]
  | succ m ih =>
    intro acc
    rw [List.replicate_succ, splitSentAux]
    simp only [punctChar]
    norm_num
    rw [ih ('B' :: acc)]
    simp

/-- `replaceEllipsis` is the identity on a list of `'B'`s. -/
theorem replaceEllipsis_replicate_B (n : ℕ) :
    replaceEllipsis (List.replicate n 'B') = List.replicate n 'B' := by
  induction n with
  | zero => rfl
  | succ m ih =>
    rw [List.replicate_succ, replaceEllipsis]
    · rw [ih]
    all_goals intros
    all_goals exact absurd (by assumption : ('B' : Char) = '.') (by decide)

/-- A string consisting of a single run of `'B'`s contains no sentence
delimiter followed by whitespace, so `re.split` returns a single piece and
the pairwise recombination discards it: `_break_into_sentences` returns the
empty list. -/
theorem break_into_sentences_replicate_B (n : ℕ) :
    break_into_sentences (String.mk (List.replicate n 'B')) = [] := by
  unfold break_into_sentences
  simp only [String.data]
  rw [replaceEllipsis_replicate_B, splitSentAux_replicate_B]
  rfl

/-- C1.  The segmentation round-trip fails: on the paragraph sequence
`["a", "X" * 4097]` the optimistic whole-paragraph loop pops the second
paragraph with the walrus assignment, finds that it does not fit, and — since
`paragraph_processed` is already true — never reaches the sentence fallback,
so the 4097-character paragraph is discarded entirely.  The produced buffers
are `["a"]`: the concatenation of the output does not reproduce the input up
to whitespace normalization; 4097 characters of content are lost. -/
theorem segmenterDropsSecondChunk (s : String) (h : s.length = 4097) :
    convert_paragraph_text_to_buffers 10 ["a", s] = some ["a"] := by
  have e1 : "a".length = 1 := rfl
  have e2 : "\n".length = 1 := rfl
  have e3 : ("a" ++ "\n" : String) = "a\n" := rfl
  have hp : paraLoop MAX_CHARS "" false ["a", s] = ("a\n", true, some s, []) := by
    rw [paraLoop]
    norm_num [String.length_append, e1, e2, MAX_CHARS]
    rw [paraLoop]
    norm_num [String.length_append, e1, e2, e3, h, MAX_CHARS]
  have hf : flush_buffer "a\n" [] = ("", ["a"]) := by decide
  have hf2 : flush_buffer "" ["a"] = ("", ["a"]) := by decide
  show segmentLoop MAX_CHARS 10 ["a", s] "" [] = some ["a"]
  rw [segmentLoop, hp]
  show segmentLoop MAX_CHARS 9 [] (flush_buffer "a\n" []).1 (flush_buffer "a\n" []).2
      = some ["a"]
  rw [hf]
  rw [segmentLoop, hf2]
  rfl

/-- C1.  The segmentation round-trip fails: on the paragraph sequence
`["a", "X" * 4097]` the optimistic whole-paragraph loop pops the second
paragraph with the walrus assignment, finds that it does not fit, and — since
`paragraph_processed` is already true — never reaches the sentence fallback,
so the 4097-character paragraph is discarded entirely.  The produced buffers
are `["a"]`: the concatenation of the output does not reproduce the input up
to whitespace normalization; 4097 characters of content are lost. -/
theorem c1_round_trip_loses_paragraph :
    convert_paragraph_text_to_buffers 10 ["a", String.mk (List.replicate 4097 'X')]
      = some ["a"] :=
  segmenterDropsSecondChunk (String.mk (List.replicate 4097 'X'))
    (by show (List.replicate 4097 'X').length = 4097; rw [List.length_replicate])

/-- An oversized run of `'B'`s handed to the segmenter on its own is dropped
and the sentinel `[""]` is returned. -/
theorem segmenterDropsOversizedToken (n : ℕ) (hn : 4096 < n) :
    convert_paragraph_text_to_buffers 10 [String.mk (List.replicate n 'B')]
      = some [""] := by
  set s := String.mk (List.replicate n 'B') with hs
  have h : s.length = n := by simp [hs]
  have e2 : "\n".length = 1 := rfl
  have hp : paraLoop MAX_CHARS "" false [s] = ("", false, some s, []) := by
    rw [paraLoop]
    have : ¬ (("" ++ s ++ "\n").length ≤ MAX_CHARS) := by
      simp only [String.length_append, e2, h, MAX_CHARS]
      omega
    simp only [this, if_false]
  have hps : process_sentences MAX_CHARS "" s = (false, "", []) := by
    unfold process_sentences
    rw [hs, break_into_sentences_replicate_B]
    rfl
  have hf : flush_buffer "" [] = ("", []) := by decide
  show segmentLoop MAX_CHARS 10 [s] "" [] = some [""]
  rw [segmentLoop, hp]
  show (match (process_sentences MAX_CHARS "" s).2.2, (process_sentences MAX_CHARS "" s).1 with
    | s_ :: restS, false =>
      let pw := process_words MAX_CHARS (process_sentences MAX_CHARS "" s).2.1 s_ restS
      let remainder := joinSpace pw.2
      let f := flush_buffer pw.1 []
      segmentLoop MAX_CHARS 9 (remainder :: []) f.1 f.2
    | _, _ =>
      let f := flush_buffer (process_sentences MAX_CHARS "" s).2.1 []
      segmentLoop MAX_CHARS 9 [] f.1 f.2) = some [""]
  rw [hps]
  show segmentLoop MAX_CHARS 9 [] (flush_buffer "" []).1 (flush_buffer "" []).2 = some [""]
  rw [hf]
  rw [segmentLoop]
  rfl

/-- C2.  A single whitespace-free token longer than `MAX_CHARS` is not
force-emitted as its own buffer: the paragraph `"B" * 4097` does not fit into
a buffer, so it is handed to `_break_into_sentences`, which — finding no
sentence delimiter followed by whitespace — returns the empty sentence list,
after which the token is silently dropped and the segmenter returns the
sentinel `[""]`.  (The loop does terminate here without throwing; what fails
is the claimed force-emission of the oversized token as its own buffer.) -/
theorem c2_oversized_token_dropped_not_emitted :
    convert_paragraph_text_to_buffers 10 [String.mk (List.replicate 4097 'B')]
      = some [""] :=
  segmenterDropsOversizedToken 4097 (by omega)

/-- Length bound for `List.dropWhile`. -/
theorem dropWhileLengthLe (p : Char → Bool) :
    ∀ l : List Char, (l.dropWhile p).length ≤ l.length := by
  intro l
  induction l with
  | nil => simp
  | cons c rest ih =>
    by_cases h : p c
    · simp only [List.dropWhile_cons, h, if_true]
      simp only [List.length_cons]
      omega
    · simp [List.dropWhile_cons, h]

/-- Stripping never lengthens a string. -/
theorem pyStrip_length_le (s : String) : (pyStrip s).length ≤ s.length := by
  show (stripChars s.data).length ≤ s.data.length
  unfold stripChars
  calc ((s.data.dropWhile pyWhitespace).reverse.dropWhile pyWhitespace).reverse.length
      = ((s.data.dropWhile pyWhitespace).reverse.dropWhile pyWhitespace).length := by
        rw [List.length_reverse]
    _ ≤ (s.data.dropWhile pyWhitespace).reverse.length := dropWhileLengthLe _ _
    _ = (s.data.dropWhile pyWhitespace).length := by rw [List.length_reverse]
    _ ≤ s.data.length := dropWhileLengthLe _ _

/-- The buffer coming out of the whole-paragraph pop-loop respects the limit
whenever the incoming buffer does: every append is guarded by the length
test. -/
theorem paraLoop_buf_le (m : ℕ) :
    ∀ l (buf : String) pr, buf.length ≤ m → (paraLoop m buf pr l).1.length ≤ m := by
  intro l
  induction l with
  | nil => intro buf pr h; simpa [paraLoop] using h
  | cons c rest ih =>
    intro buf pr h
    rw [paraLoop]
    by_cases hc : (buf ++ c ++ "\n").length ≤ m
    · simp only [hc, if_true]
      exact ih _ _ hc
    · simp only [hc, if_false]
      exact h

/-- The buffer coming out of the sentence pop-loop respects the limit
whenever the incoming buffer does. -/
theorem processSentencesLoop_buf_le (m : ℕ) :
    ∀ l (buf : String) df, buf.length ≤ m →
      (processSentencesLoop m df buf l).2.1.length ≤ m := by
  intro l
  induction l with
  | nil => intro buf df h; simpa [processSentencesLoop] using h
  | cons s rest ih =>
    intro buf df h
    rw [processSentencesLoop]
    by_cases hc : (buf ++ s ++ "\n").length ≤ m
    · simp only [hc, if_true]
      exact ih _ _ hc
    · simp only [hc, if_false]
      exact h

/-- The buffer coming out of the word pop-loop respects the limit whenever
the incoming buffer does. -/
theorem processWordsLoop_buf_le (m : ℕ) :
    ∀ l (buf : String), buf.length ≤ m →
      (processWordsLoop m buf l).1.length ≤ m := by
  intro l
  induction l with
  | nil => intro buf h; simpa [processWordsLoop] using h
  | cons w rest ih =>
    intro buf h
    rw [processWordsLoop]
    by_cases hc : (buf ++ w ++ " ").length ≤ m
    · simp only [hc, if_true]
      exact ih _ hc
    · simp only [hc, if_false]
      exact h

/-- `flush_buffer` leaves the buffer bounded and only ever appends the
stripped (hence no longer) buffer to the output. -/
theorem flush_buffer_spec (m : ℕ) (buf : String) (sized : List String)
    (hbuf : buf.length ≤ m) (hsized : ∀ b ∈ sized, String.length b ≤ m) :
    (flush_buffer buf sized).1.length ≤ m ∧
      ∀ b ∈ (flush_buffer buf sized).2, String.length b ≤ m := by
  unfold flush_buffer
  by_cases h : (pyStrip buf).data.isEmpty
  · simp only [h, if_true]
    exact ⟨hbuf, hsized⟩
  · simp only [h, if_false]
    refine ⟨by simp, ?_⟩
    intro b hb
    rcases List.mem_append.mp hb with hb | hb
    · exact hsized b hb
    · rcases List.mem_singleton.mp hb with rfl
      exact le_trans (pyStrip_length_le buf) hbuf

/-- Main loop invariant for the bound: if the running buffer and every
already-emitted buffer are within the limit, then every buffer of a
completed run is within the limit. -/
theorem segmentLoop_bound (m : ℕ) :
    ∀ fuel unproc (buf : String) sized res,
      buf.length ≤ m → (∀ b ∈ sized, String.length b ≤ m) →
      segmentLoop m fuel unproc buf sized = some res →
      ∀ b ∈ res, String.length b ≤ m := by
  intro fuel
  induction fuel with
  | zero =>
    intro unproc buf sized res _ _ hrun
    simp [segmentLoop] at hrun
  | succ n ih =>
    intro unproc buf sized res hbuf hsized hrun
    cases unproc with
    | nil =>
      rw [segmentLoop] at hrun
      have hfl := flush_buffer_spec m buf sized hbuf hsized
      rcases Option.some.injEq _ _ ▸ hrun with rfl
      by_cases he : (flush_buffer buf sized).2.isEmpty
      · simp only [he, if_true]
        intro b hb
        rcases List.mem_singleton.mp hb with rfl
        simp
      · simp only [he, if_false]
        exact hfl.2
    | cons c0 rest0 =>
      rw [segmentLoop] at hrun
      have hpl : (paraLoop m buf false (c0 :: rest0)).1.length ≤ m :=
        paraLoop_buf_le m _ buf false hbuf
      revert hrun
      cases hopt : (paraLoop m buf false (c0 :: rest0)).2.2.1 with
      | none =>
        intro hrun
        have hfl := flush_buffer_spec m _ sized hpl hsized
        exact ih _ _ _ res hfl.1 hfl.2 hrun
      | some chunk =>
        intro hrun
        cases hpr : (paraLoop m buf false (c0 :: rest0)).2.1 with
        | true =>
          rw [hpr] at hrun
          simp only [if_true] at hrun
          have hfl := flush_buffer_spec m _ sized hpl hsized
          exact ih _ _ _ res hfl.1 hfl.2 hrun
        | false =>
          rw [hpr] at hrun
          simp only [Bool.false_eq_true, if_false] at hrun
          have hps : (process_sentences m (paraLoop m buf false (c0 :: rest0)).1 chunk).2.1.length ≤ m :=
            processSentencesLoop_buf_le m _ _ false hpl
          revert hrun
          cases hsents : (process_sentences m (paraLoop m buf false (c0 :: rest0)).1 chunk).2.2 with
          | nil =>
            intro hrun
            have hfl := flush_buffer_spec m _ sized hps hsized
            exact ih _ _ _ res hfl.1 hfl.2 hrun
          | cons s restS =>
            cases hdf : (process_sentences m (paraLoop m buf false (c0 :: rest0)).1 chunk).1 with
            | false =>
              intro hrun
              have hpw : (process_words m (process_sentences m (paraLoop m buf false (c0 :: rest0)).1 chunk).2.1 s restS).1.length ≤ m := by
                unfold process_words
                exact processWordsLoop_buf_le m _ _ hps
              have hfl := flush_buffer_spec m _ sized hpw hsized
              exact ih _ _ _ res hfl.1 hfl.2 hrun
            | true =>
              intro hrun
              have hfl := flush_buffer_spec m _ sized hps hsized
              exact ih _ _ _ res hfl.1 hfl.2 hrun

/-- C3.  Bound invariant: every buffer produced by a completed run of
`_convert_paragraph_text_to_buffers` — through the whole-paragraph path, the
sentence path, or the word path, including the sentinel `[""]` — has length
at most `MAX_CHARS` (4096). -/
theorem c3_every_buffer_within_max_chars (fuel : ℕ) (paragraphed_text : List String)
    (res : List String) (b : String)
    (hrun : convert_paragraph_text_to_buffers fuel paragraphed_text = some res)
    (hb : b ∈ res) : b.length ≤ MAX_CHARS :=
  segmentLoop_bound MAX_CHARS fuel paragraphed_text "" [] res (by simp)
    (by intro x hx; cases hx) hrun b hb

/-- Witness for C3 at a concrete input: the run on `["Hi there."]` completes
with the single buffer `"Hi there."`, which is within the limit. -/
theorem c3_witness :
    convert_paragraph_text_to_buffers 5 ["Hi there."] = some ["Hi there."] ∧
      "Hi there.".length ≤ MAX_CHARS :=
  ⟨by decide, c3_every_buffer_within_max_chars 5 ["Hi there."] ["Hi there."]
    "Hi there." (by decide) (by simp)⟩

/-- Overwriting a key in the buffer dict does not change which keys are
present. -/
theorem mapOverwrite_find?_isSome (k : ℚ) (v : List ℕ) (k' : ℚ) :
    ∀ buf : List (ℚ × List ℕ),
      (buf.find? (fun e => e.1 == k')).isSome →
      ((buf.map (fun e => if e.1 == k then (e.1, v) else e)).find?
        (fun e => e.1 == k')).isSome := by
  intro buf
  induction buf with
  | nil => intro h; simp at h
  | cons e rest ih =>
    intro h
    simp only [List.find?_cons] at h
    simp only [List.map_cons, List.find?_cons]
    by_cases hk : (e.1 == k) = true
    · simp only [hk, if_true]
      by_cases hk' : (e.1 == k') = true
      · simp [hk']
      · rw [Bool.not_eq_true] at hk'
        simp only [hk', cond_false] at h ⊢
        exact ih h
    · rw [Bool.not_eq_true] at hk
      simp only [hk, Bool.false_eq_true, if_false]
      by_cases hk' : (e.1 == k') = true
      · simp [hk']
      · rw [Bool.not_eq_true] at hk'
        simp only [hk', cond_false] at h ⊢
        exact ih h

theorem dictInsert_find?_isSome (buf : List (ℚ × List ℕ)) (k : ℚ) (v : List ℕ)
    (k' : ℚ) (h : (buf.find? (fun e => e.1 == k')).isSome) :
    ((dictInsert buf k v).find? (fun e => e.1 == k')).isSome := by
  unfold dictInsert
  split
  · exact mapOverwrite_find?_isSome k v k' buf h
  · rw [List.find?_append]
    rcases Option.isSome_iff_exists.mp h with ⟨e, he⟩
    rw [he]
    simp

/-- Keys present in the narrator's audio buffer are still present after the
buffer-building loop of any later `load_audio_for_timestamp` call: the dict
only ever gains entries. -/
theorem loadBufferLoop_no_eviction (t : ℚ) :
    ∀ pages (buf : List (ℚ × List ℕ)) ct chosen (k : ℚ),
      (buf.find? (fun e => e.1 == k)).isSome →
      (((loadBufferLoop t pages buf ct chosen).1.find? (fun e => e.1 == k))).isSome := by
  intro pages
  induction pages with
  | nil => intro buf ct chosen k h; simpa [loadBufferLoop] using h
  | cons p rest ih =>
    intro buf ct chosen k h
    rw [loadBufferLoop]
    cases hblob : p.audioBlob with
    | none => exact ih buf ct chosen k h
    | some blob =>
      by_cases he : blob.isEmpty
      · simp only [he, if_true]
        exact ih buf ct chosen k h
      · simp only [he, if_false]
        exact ih _ _ _ k (dictInsert_find?_isSome buf ct blob k h)

/-- C4.  The narration cache has no LRU behaviour because it can never be
populated: with the actual arity of the reader.py line 46 call modeled,
every run of `load_audio_for_timestamp` raises `TypeError` at that call —
for every chunk table, book table, page table, narrator state and timestamp
— before the buffer-building loop runs, so no entry is ever inserted into
`audio_buffer` and no capacity or eviction behaviour can be observed.  (The
buffer itself is a plain unbounded dict with no capacity bookkeeping; even
its dead buffer loop never evicts, see `loadBufferLoop_no_eviction`.) -/
theorem c4_cache_never_populated (chunks : List AudioChunk) (books : List Book)
    (pagesDb : List PageRow) (nar : NarratorState) (t : ℚ) :
    load_audio_for_timestamp_run chunks books pagesDb nar t
      = .error "TypeError: get_audio_chunk_for_timestamp() takes 2 positional arguments but 3 were given" :=
  rfl

/-- C7.  `interrupt` never persists anything and is never a silent no-op:
with the actual arity of the reader.py line 76 call modeled,
`get_current_position` raises `TypeError` on every call, the exception
propagates through `interrupt` (which has no handler), and
`update_reading_position` is never reached — for every chunk table, state
table, narrator state, passed timestamp and user. -/
theorem c7_interrupt_always_raises (chunks : List AudioChunk)
    (states : List UserBookState) (nar : NarratorState) (t : ℚ) (uid : ℕ) :
    interrupt_run chunks states nar t uid
      = .error "TypeError: get_audio_chunk_for_timestamp() takes 2 positional arguments but 3 were given" :=
  rfl

/-- C8 counterexample.  The pipeline persists a duration of
`len(audio)/32000` seconds for a page, but `scrub` scans the buffer with
`len(audio)/44100`.  After loading a page whose blob has two bytes (persisted
duration `2/32000`), the buffer holds the chunk at key 0; the timestamp
`1/20000` lies strictly inside the chunk's persisted interval
`[0, 2/32000)`, yet the buffer scan finds nothing and `scrub` falls through
to `load_audio_for_timestamp`, i.e. to the persistence path. -/
theorem c8_counterexample :
    ((loadBufferLoop 0
        [{ id := 1, bookId := 0, pageNumber := 1, chapter := none,
           paragraphedText := [], audioBlob := some [7, 8],
           audioDuration := some (2/32000), audioStartOffset := some 0 }]
        [] 0 []).1 = [((0 : ℚ), [7, 8])]) ∧
    ((0 : ℚ) ≤ 1/20000 ∧ (1/20000 : ℚ) < 0 + 2/32000) ∧
    (([((0 : ℚ), [7, 8])].find? (fun e =>
        decide (e.1 ≤ (1/20000 : ℚ)) &&
          decide ((1/20000 : ℚ) < e.1 + (e.2.length : ℚ) / 44100))) = none) ∧
    scrub [] [] []
        { bookId := 0, audioBuffer := [((0 : ℚ), [7, 8])], currentTimestamp := 0 }
        (1/20000)
      = .error "No audio chunk found for timestamp" := by
  refine ⟨?_, ⟨by norm_num, by norm_num⟩, ?_, ?_⟩
  · norm_num [loadBufferLoop, dictInsert]
  · norm_num [List.find?]
  · norm_num [scrub, List.find?, load_audio_for_timestamp, get_audio_chunk_for_timestamp]

/-- C8 (amended).  Scrubbing to a timestamp strictly inside a buffered
entry's scan interval `[key, key + len(audio)/44100)` is answered from the
buffer alone — the returned audio comes from the buffer, the narrator state
is untouched, and the result does not depend on the chunk table, book table
or page table, so no persistence lookup happens.  Because the persisted
duration of a chunk is `len(audio)/32000 > len(audio)/44100`, timestamps in
the trailing part of a chunk's persisted interval still fall through to the
persistence path. -/
theorem c8_amended_interval_hit_no_lookup (nar : NarratorState) (t : ℚ)
    (h : ∃ e ∈ nar.audioBuffer, e.1 ≤ t ∧ t < e.1 + (e.2.length : ℚ) / 44100) :
    ∃ a, ∀ (chunks : List AudioChunk) (books : List Book) (pagesDb : List PageRow),
      scrub chunks books pagesDb nar t = .ok (nar, a) := by
  have hsome : (nar.audioBuffer.find? (fun e =>
      decide (e.1 ≤ t) && decide (t < e.1 + (e.2.length : ℚ) / 44100))).isSome := by
    rcases h with ⟨e, he, h1, h2⟩
    rw [List.find?_isSome]
    exact ⟨e, he, by simp [h1, h2]⟩
  rcases Option.isSome_iff_exists.mp hsome with ⟨e, he⟩
  refine ⟨e.2, ?_⟩
  intro chunks books pagesDb
  unfold scrub
  rw [he]

/-- Witness for the amended C8 at a concrete buffer and timestamp. -/
theorem c8_amended_witness :
    (∃ e ∈ [((0 : ℚ), [7, 8])], e.1 ≤ (1/44100 : ℚ) ∧
        (1/44100 : ℚ) < e.1 + (e.2.length : ℚ) / 44100) ∧
    ∃ a, ∀ (chunks : List AudioChunk) (books : List Book) (pagesDb : List PageRow),
      scrub chunks books pagesDb
          { bookId := 0, audioBuffer := [((0 : ℚ), [7, 8])], currentTimestamp := 0 }
          (1/44100)
        = .ok
            ({ bookId := 0, audioBuffer := [((0 : ℚ), [7, 8])], currentTimestamp := 0 },
              a) :=
  ⟨⟨((0 : ℚ), [7, 8]), by simp, by norm_num, by norm_num⟩,
    c8_amended_interval_hit_no_lookup _ _
      ⟨((0 : ℚ), [7, 8]), by simp, by norm_num, by norm_num⟩⟩

/-- Finding by id commutes with mapping an id-preserving function over the
table. -/
theorem find?_map_id (f : PageRow → PageRow) (hf : ∀ q, (f q).id = q.id) (j : ℕ) :
    ∀ db : List PageRow,
      (db.map f).find? (fun q => q.id == j) = (db.find? (fun q => q.id == j)).map f := by
  intro db
  induction db with
  | nil => rfl
  | cons q rest ih =>
    simp only [List.map_cons, List.find?_cons, hf q]
    by_cases hq : (q.id == j) = true
    · simp [hq]
    · rw [Bool.not_eq_true] at hq
      simp only [hq, cond_false]
      exact ih

/-- The row written by `save_page_audio` keeps every id. -/
theorem saveUpd_id (audio : List ℕ) (pid : ℕ) (dur offv : ℚ) (q : PageRow) :
    ((if q.id == pid then
        { q with audioBlob := some audio, audioDuration := some dur,
                 audioStartOffset := some offv }
      else q) : PageRow).id = q.id := by
  by_cases h : (q.id == pid) = true
  · simp [h]
  · rw [Bool.not_eq_true] at h
    simp [h]

/-- Anatomy of a successful `save_page_audio`: the page is found and the
result is the pointwise update of the table. -/
theorem save_page_audio_ok_elim (db : List PageRow) (audio : List ℕ) (pid : ℕ)
    (dur off : ℚ) (db' : List PageRow)
    (hok : save_page_audio db audio pid dur off = .ok db') :
    ∃ page offv, db.find? (fun q => q.id == pid) = some page ∧
      db' = db.map (fun q =>
        if q.id == pid then
          { q with audioBlob := some audio, audioDuration := some dur,
                   audioStartOffset := some offv }
        else q) := by
  unfold save_page_audio at hok
  revert hok
  cases hfind : db.find? (fun q => q.id == pid) with
  | none => intro hok; cases hok
  | some page =>
    intro hok
    exact ⟨page, _, rfl, (Except.ok.inj hok).symm⟩

/-- A successful save does not disturb the row of any other id. -/
theorem save_find?_ne (db : List PageRow) (audio : List ℕ) (pid : ℕ)
    (dur off : ℚ) (db' : List PageRow) (j : ℕ) (hj : j ≠ pid)
    (hok : save_page_audio db audio pid dur off = .ok db') :
    db'.find? (fun q => q.id == j) = db.find? (fun q => q.id == j) := by
  rcases save_page_audio_ok_elim db audio pid dur off db' hok with ⟨page, offv, hfind, rfl⟩
  rw [find?_map_id _ (saveUpd_id audio pid dur offv) j db]
  cases hq : db.find? (fun q => q.id == j) with
  | none => rfl
  | some q =>
    have hqid := List.find?_some hq
    simp only [beq_iff_eq] at hqid
    have hne : ¬ ((q.id == pid) = true) := by
      rw [beq_iff_eq]
      omega
    rw [Bool.not_eq_true] at hne
    simp [hne]
    intro hcontra
    exact absurd (hqid.symm.trans hcontra) hj

/-- A pipeline step on a page whose synthesis fails leaves the table
untouched. -/
theorem pipeStep_fail_db (synth : PageRow → Except String (List ℕ))
    (st : PipeState) (p : PageRow) (e : String) (hsy : synth p = .error e) :
    (pipeStep synth st p).db = st.db := by
  unfold pipeStep
  rw [hsy]
  by_cases hch : p.chapter ≠ st.currentChapter
  · rw [if_pos hch]
  · rw [if_neg hch]

/-- The table coming out of a pipeline step whose synthesis succeeds, with
the chapter-tracking `let` normalized away (the chapter reset changes only
the offset argument passed to `save_page_audio`). -/
theorem pipeStep_ok_db (synth : PageRow → Except String (List ℕ))
    (st : PipeState) (p : PageRow) (a : List ℕ) (hsy : synth p = .ok a) :
    (pipeStep synth st p).db =
      match save_page_audio st.db a p.id ((a.length : ℚ) / 32000)
          (if p.chapter ≠ st.currentChapter then 0 else st.chapterOffset) with
      | .error _ => st.db
      | .ok db2 => db2 := by
  unfold pipeStep
  rw [hsy]
  by_cases hch : p.chapter ≠ st.currentChapter
  · simp only [if_pos hch]
    cases hsv : save_page_audio st.db a p.id ((a.length : ℚ) / 32000) 0 <;> rfl
  · simp only [if_neg hch]
    cases hsv : save_page_audio st.db a p.id ((a.length : ℚ) / 32000) st.chapterOffset <;> rfl

/-- One pipeline step leaves the rows of other ids untouched. -/
theorem pipeStep_find?_ne (synth : PageRow → Except String (List ℕ))
    (st : PipeState) (p : PageRow) (j : ℕ) (hj : j ≠ p.id) :
    (pipeStep synth st p).db.find? (fun q => q.id == j) =
      st.db.find? (fun q => q.id == j) := by
  cases hsy : synth p with
  | error e => rw [pipeStep_fail_db synth st p e hsy]
  | ok a =>
    rw [pipeStep_ok_db synth st p a hsy]
    cases hsv : save_page_audio st.db a p.id ((a.length : ℚ) / 32000)
        (if p.chapter ≠ st.currentChapter then 0 else st.chapterOffset) with
    | error e => rfl
    | ok db2 => exact save_find?_ne st.db a p.id _ _ db2 j hj hsv

/-- Whether an id is present in the table is invariant under a pipeline
step. -/
theorem pipeStep_find?_isSome (synth : PageRow → Except String (List ℕ))
    (st : PipeState) (p : PageRow) (j : ℕ) :
    ((pipeStep synth st p).db.find? (fun q => q.id == j)).isSome =
      (st.db.find? (fun q => q.id == j)).isSome := by
  by_cases hj : j = p.id
  · subst hj
    cases hsy : synth p with
    | error e => rw [pipeStep_fail_db synth st p e hsy]
    | ok a =>
      rw [pipeStep_ok_db synth st p a hsy]
      cases hsv : save_page_audio st.db a p.id ((a.length : ℚ) / 32000)
          (if p.chapter ≠ st.currentChapter then 0 else st.chapterOffset) with
      | error e => rfl
      | ok db2 =>
        rcases save_page_audio_ok_elim _ a p.id _ _ db2 hsv with ⟨page, offv, hfind, rfl⟩
        rw [find?_map_id _ (saveUpd_id a p.id _ offv) p.id _, hfind]
        rfl
  · rw [pipeStep_find?_ne synth st p j hj]

/-- Once a row holds audio, it holds audio for the rest of the run: no
pipeline step ever clears a blob. -/
theorem pipeStep_blob_mono (synth : PageRow → Except String (List ℕ))
    (st : PipeState) (p : PageRow) (j : ℕ) (q : PageRow)
    (h : st.db.find? (fun r => r.id == j) = some q) (hblob : q.audioBlob.isSome) :
    ∃ q', (pipeStep synth st p).db.find? (fun r => r.id == j) = some q' ∧
      q'.audioBlob.isSome := by
  by_cases hj : j = p.id
  · subst hj
    cases hsy : synth p with
    | error e => rw [pipeStep_fail_db synth st p e hsy]; exact ⟨q, h, hblob⟩
    | ok a =>
      rw [pipeStep_ok_db synth st p a hsy]
      cases hsv : save_page_audio st.db a p.id ((a.length : ℚ) / 32000)
          (if p.chapter ≠ st.currentChapter then 0 else st.chapterOffset) with
      | error e => exact ⟨q, h, hblob⟩
      | ok db2 =>
        rcases save_page_audio_ok_elim _ a p.id _ _ db2 hsv with ⟨page, offv, hfind, rfl⟩
        rw [find?_map_id _ (saveUpd_id a p.id _ offv) p.id _, h]
        have hqid := List.find?_some h
        simp only [beq_iff_eq] at hqid
        exact ⟨_, rfl, by simp [hqid]⟩
  · exact ⟨q, by rw [pipeStep_find?_ne synth st p j hj]; exact h, hblob⟩

/-- Blob persistence through the rest of a run. -/
theorem foldl_blob_mono (synth : PageRow → Except String (List ℕ)) :
    ∀ (ps : List PageRow) (st : PipeState) (j : ℕ) (q : PageRow),
      st.db.find? (fun r => r.id == j) = some q → q.audioBlob.isSome →
      ∃ q', ((ps.foldl (pipeStep synth) st).db.find? (fun r => r.id == j)) = some q' ∧
        q'.audioBlob.isSome := by
  intro ps
  induction ps with
  | nil => intro st j q h hb; exact ⟨q, h, hb⟩
  | cons p rest ih =>
    intro st j q h hb
    rcases pipeStep_blob_mono synth st p j q h hb with ⟨q', h', hb'⟩
    exact ih (pipeStep synth st p) j q' h' hb'

/-- Rows whose page never succeeds are never touched by a run. -/
theorem foldl_find?_untouched (synth : PageRow → Except String (List ℕ)) :
    ∀ (ps : List PageRow) (st : PipeState) (j : ℕ),
      (∀ p ∈ ps, p.id = j → ∃ e, synth p = .error e) →
      ((ps.foldl (pipeStep synth) st).db.find? (fun q => q.id == j)) =
        st.db.find? (fun q => q.id == j) := by
  intro ps
  induction ps with
  | nil => intro st j _; rfl
  | cons p rest ih =>
    intro st j hfail
    rw [List.foldl_cons]
    rw [ih (pipeStep synth st p) j (fun r hr => hfail r (List.mem_cons_of_mem p hr))]
    by_cases hj : j = p.id
    · rcases hfail p (List.mem_cons_self p rest) hj.symm with ⟨e, he⟩
      rw [pipeStep_fail_db synth st p e he]
    · rw [pipeStep_find?_ne synth st p j hj]

/-- A step on a page whose synthesis succeeds, and whose row is present,
stores the produced audio on that row. -/
theorem pipeStep_success_blob (synth : PageRow → Except String (List ℕ))
    (st : PipeState) (p : PageRow) (a : List ℕ) (hsy : synth p = .ok a)
    (hpresent : (st.db.find? (fun r => r.id == p.id)).isSome) :
    ∃ q', (pipeStep synth st p).db.find? (fun r => r.id == p.id) = some q' ∧
      q'.audioBlob = some a := by
  rcases Option.isSome_iff_exists.mp hpresent with ⟨page, hfind⟩
  rw [pipeStep_ok_db synth st p a hsy]
  unfold save_page_audio
  rw [hfind]
  have hpid := List.find?_some hfind
  simp only [beq_iff_eq] at hpid
  rw [find?_map_id _ (saveUpd_id a p.id _ _) p.id _, hfind]
  exact ⟨_, rfl, by simp [hpid]⟩

/-- Presence of an id is invariant under a whole run prefix. -/
theorem foldl_find?_isSome (synth : PageRow → Except String (List ℕ)) :
    ∀ (ps : List PageRow) (st : PipeState) (j : ℕ),
      ((ps.foldl (pipeStep synth) st).db.find? (fun q => q.id == j)).isSome =
        (st.db.find? (fun q => q.id == j)).isSome := by
  intro ps
  induction ps with
  | nil => intro st j; rfl
  | cons p rest ih =>
    intro st j
    rw [List.foldl_cons, ih (pipeStep synth st p) j, pipeStep_find?_isSome]

/-- With id-distinct rows, finding a member row by its own id returns that
row. -/
theorem find?_self_of_nodup :
    ∀ (db : List PageRow), (db.map (fun q => q.id)).Nodup →
      ∀ p ∈ db, db.find? (fun q => q.id == p.id) = some p := by
  intro db
  induction db with
  | nil => intro _ p hp; cases hp
  | cons q rest ih =>
    intro hnd p hp
    rw [List.map_cons, List.nodup_cons] at hnd
    rw [List.find?_cons]
    rcases List.mem_cons.mp hp with rfl | hp'
    · simp
    · have hne : ¬ ((q.id == p.id) = true) := by
        rw [beq_iff_eq]
        intro hqp
        exact hnd.1 (hqp ▸ List.mem_map_of_mem (fun r => r.id) hp')
      rw [Bool.not_eq_true] at hne
      simp only [hne, cond_false]
      exact ih hnd.2 p hp'

/-- Under the hypotheses of a well-formed single-book page table, the
pipeline's page query returns the whole table. -/
theorem fetch_all_pages (bid total : ℕ) (db : List PageRow)
    (htot : total ≤ 999998)
    (hbook : ∀ p ∈ db, p.bookId = bid)
    (hpn : ∀ p ∈ db, p.pageNumber ≤ total) :
    get_pages_from_book [{ id := bid, totalPages := total }] db bid 0 999999 = db := by
  have hfind : List.find? (fun b => b.id == bid)
      ([{ id := bid, totalPages := total }] : List Book)
      = some { id := bid, totalPages := total } := by simp
  simp only [get_pages_from_book, hfind]
  have hfetch : min (999999 : ℤ) ((total : ℤ) - ((0 : ℕ) : ℤ) + 1) = (total : ℤ) + 1 := by
    rw [min_eq_right (by push_cast; omega)]
    push_cast
    omega
  rw [hfetch]
  rw [if_neg (by omega)]
  apply List.filter_eq_self.mpr
  intro p hp
  have h1 := hbook p hp
  have h2 := hpn p hp
  simp only [Bool.and_eq_true, beq_iff_eq, decide_eq_true_eq]
  refine ⟨⟨h1, by omega⟩, by push_cast; omega⟩

/-- C6.  Partial-failure isolation: for a fresh single-book page table where
synthesis fails exactly on the page with id `k`, `audio_entire_book` returns
normally (`.ok`; every exception of the loop body is caught), every other
page's row ends the run holding audio, and the row of page `k` is bitwise
untouched — no audio bytes, no duration, no offset. -/
theorem c6_partial_failure_isolation (bid total k : ℕ) (db : List PageRow)
    (synth : PageRow → Except String (List ℕ))
    (htot : total ≤ 999998)
    (hbook : ∀ p ∈ db, p.bookId = bid)
    (hpn : ∀ p ∈ db, p.pageNumber ≤ total)
    (hids : (db.map (fun q => q.id)).Nodup)
    (hfail : ∀ p ∈ db, p.id = k → ∃ e, synth p = .error e)
    (hok : ∀ p ∈ db, p.id ≠ k → ∃ a, synth p = .ok a) :
    ∃ db', audio_entire_book [{ id := bid, totalPages := total }] db synth bid = .ok db' ∧
      (∀ p ∈ db, p.id ≠ k →
        ∃ q, db'.find? (fun r => r.id == p.id) = some q ∧ q.audioBlob.isSome) ∧
      (∀ p ∈ db, p.id = k → db'.find? (fun r => r.id == p.id) = some p) := by
  unfold audio_entire_book
  rw [fetch_all_pages bid total db htot hbook hpn]
  refine ⟨_, rfl, ?_, ?_⟩
  · intro p hp hpk
    rcases hok p hp hpk with ⟨a, ha⟩
    rcases List.append_of_mem hp with ⟨l, r, rfl⟩
    rw [List.foldl_append, List.foldl_cons]
    set st := l.foldl (pipeStep synth) ⟨l ++ p :: r, none, 0⟩ with hst
    have hpresent : (st.db.find? (fun q => q.id == p.id)).isSome := by
      rw [hst, foldl_find?_isSome]
      show (((l ++ p :: r).find? (fun q => q.id == p.id))).isSome = true
      rw [find?_self_of_nodup (l ++ p :: r) hids p hp]
      rfl
    rcases pipeStep_success_blob synth st p a ha hpresent with ⟨q', hq', hblob⟩
    exact foldl_blob_mono synth r (pipeStep synth st p) p.id q' hq' (by simp [hblob])
  · intro p hp hpk
    subst hpk
    rw [foldl_find?_untouched synth db _ p.id
      (fun r hr hrid => hfail r hr (by rw [hrid]))]
    exact find?_self_of_nodup db hids p hp

/-- Witness for C6: three fresh pages, synthesis forced to fail exactly on
page id 1; pages 0 and 2 end the run with audio, page 1 ends it untouched. -/
theorem c6_witness :
    ∃ db', audio_entire_book [{ id := 0, totalPages := 2 }] c6pages c6synth 0 = .ok db' ∧
      (∀ p ∈ c6pages, p.id ≠ 1 →
        ∃ q, db'.find? (fun r => r.id == p.id) = some q ∧ q.audioBlob.isSome) ∧
      (∀ p ∈ c6pages, p.id = 1 → db'.find? (fun r => r.id == p.id) = some p) :=
  c6_partial_failure_isolation 0 2 1 c6pages c6synth
    (by omega)
    (by intro p hp; simp only [c6pages] at hp; fin_cases hp <;> rfl)
    (by intro p hp; simp only [c6pages] at hp; fin_cases hp <;> simp)
    (by decide)
    (by intro p hp hpid; exact ⟨"boom", by rw [show c6synth p = .error "boom" from if_pos hpid]⟩)
    (by intro p hp hpid; exact ⟨[5], by rw [show c6synth p = .ok [5] from if_neg hpid]⟩)

/-- C10.  When `save_page_audio` is called with `chapter_offset = 0.0` for a
page that has same-book, same-chapter pages of smaller page number already
stored, the explicitly passed `0.0` is overridden: the persisted
`audio_start_offset` is the last such earlier page's `audio_start_offset`
(or 0) plus its `audio_duration` (or 0). -/
theorem c10_zero_offset_recomputed (pagesDb : List PageRow) (audio : List ℕ)
    (pid : ℕ) (dur : ℚ) (page lastPg : PageRow)
    (hfind : pagesDb.find? (fun q => q.id == pid) = some page)
    (hlast : lastPrevPage pagesDb page = some lastPg) :
    save_page_audio pagesDb audio pid dur 0 =
      .ok (pagesDb.map (fun q =>
        if q.id == pid then
          { q with audioBlob := some audio, audioDuration := some dur,
                   audioStartOffset :=
                     some (lastPg.audioStartOffset.getD 0 + lastPg.audioDuration.getD 0) }
        else q)) := by
  unfold save_page_audio
  rw [hfind]
  simp [hlast]

/-- Witness for C10: with two stored chapter-`"c"` pages of durations 2 and
3 at offsets 0 and 2, saving page 2 with an explicit offset of `0.0`
persists offset `2 + 3 = 5`, not `0.0`. -/
theorem c10_witness :
    save_page_audio
      [{ id := 0, bookId := 0, pageNumber := 0, chapter := some "c",
         paragraphedText := [], audioBlob := some [1], audioDuration := some 2,
         audioStartOffset := some 0 },
       { id := 1, bookId := 0, pageNumber := 1, chapter := some "c",
         paragraphedText := [], audioBlob := some [2], audioDuration := some 3,
         audioStartOffset := some 2 },
       { id := 2, bookId := 0, pageNumber := 2, chapter := some "c",
         paragraphedText := [], audioBlob := none, audioDuration := none,
         audioStartOffset := none }]
      [9] 2 7 0 =
      .ok [{ id := 0, bookId := 0, pageNumber := 0, chapter := some "c",
             paragraphedText := [], audioBlob := some [1], audioDuration := some 2,
             audioStartOffset := some 0 },
           { id := 1, bookId := 0, pageNumber := 1, chapter := some "c",
             paragraphedText := [], audioBlob := some [2], audioDuration := some 3,
             audioStartOffset := some 2 },
           { id := 2, bookId := 0, pageNumber := 2, chapter := some "c",
             paragraphedText := [], audioBlob := some [9], audioDuration := some 7,
             audioStartOffset := some 5 }] := by
  have h := c10_zero_offset_recomputed
    [{ id := 0, bookId := 0, pageNumber := 0, chapter := some "c",
       paragraphedText := [], audioBlob := some [1], audioDuration := some 2,
       audioStartOffset := some 0 },
     { id := 1, bookId := 0, pageNumber := 1, chapter := some "c",
       paragraphedText := [], audioBlob := some [2], audioDuration := some 3,
       audioStartOffset := some 2 },
     { id := 2, bookId := 0, pageNumber := 2, chapter := some "c",
       paragraphedText := [], audioBlob := none, audioDuration := none,
       audioStartOffset := none }]
    [9] 2 7
    { id := 2, bookId := 0, pageNumber := 2, chapter := some "c",
      paragraphedText := [], audioBlob := none, audioDuration := none,
      audioStartOffset := none }
    { id := 1, bookId := 0, pageNumber := 1, chapter := some "c",
      paragraphedText := [], audioBlob := some [2], audioDuration := some 3,
      audioStartOffset := some 2 }
    (by decide) (by decide)
  rw [h]
  norm_num [List.map_cons, List.map_nil]

/-- C5.  Reading order is not preserved: `_convert_page_to_buffered_text`
reverses the paragraph list (`page.paragraphed_text[::-1]`) while the
segmenter pops from the front, so a page whose paragraphs read
`["One.", "Two."]` is packed into the single buffer `"Two.\nOne."` — the
reverse of reading order — and `synthesize_page_audio` then concatenates the
per-buffer audio in that reversed order. -/
theorem c5_reading_order_reversed :
    convert_page_to_buffered_text 10
      { id := 0, bookId := 0, pageNumber := 0, chapter := none,
        paragraphedText := ["One.", "Two."], audioBlob := none,
        audioDuration := none, audioStartOffset := none }
      = some ["Two.\nOne."] := by
  decide

/-! ## Chapter-offset accumulation (C9) support lemmas -/

/-- Membership from `getLast?`. -/
theorem memOfGetLast? {α : Type} : ∀ (l : List α) (a : α), l.getLast? = some a → a ∈ l := by
  intro l
  induction l with
  | nil => intro a h; cases h
  | cons x rest ih =>
    intro a h
    cases hr : rest with
    | nil => rw [hr] at h; cases h; exact List.mem_singleton.mpr rfl
    | cons y t =>
      rw [hr] at h
      rw [List.getLast?_cons_cons] at h
      exact List.mem_cons_of_mem x (hr ▸ ih a (hr ▸ h))

/-- `getLast?` of a cons as a `getLastD`. -/
theorem getLast?_cons_getLastD {α : Type} : ∀ (l : List α) (a : α),
    (a :: l).getLast? = some (l.getLastD a) := by
  intro l
  induction l with
  | nil => intro a; rfl
  | cons x rest ih =>
    intro a
    rw [List.getLast?_cons_cons, ih x, List.getLastD_cons]

/-- The full state after a pipeline step whose synthesis fails: the table is
unchanged, `current_chapter` is the page's label, and the offset is reset
exactly on a label change. -/
theorem pipeStep_fail_eq (synth : PageRow → Except String (List ℕ))
    (st : PipeState) (p : PageRow) (e : String) (hsy : synth p = .error e) :
    pipeStep synth st p =
      ⟨st.db, p.chapter,
        if p.chapter ≠ st.currentChapter then 0 else st.chapterOffset⟩ := by
  unfold pipeStep
  rw [hsy]
  by_cases hch : p.chapter ≠ st.currentChapter
  · rw [if_pos hch, if_pos hch]
  · rw [if_neg hch, if_neg hch]
    push_neg at hch
    rw [hch]

/-- The full state after a pipeline step whose synthesis succeeds. -/
theorem pipeStep_ok_eq (synth : PageRow → Except String (List ℕ))
    (st : PipeState) (p : PageRow) (a : List ℕ) (hsy : synth p = .ok a) :
    pipeStep synth st p =
      match save_page_audio st.db a p.id ((a.length : ℚ) / 32000)
          (if p.chapter ≠ st.currentChapter then 0 else st.chapterOffset) with
      | .error _ =>
        ⟨st.db, p.chapter,
          if p.chapter ≠ st.currentChapter then 0 else st.chapterOffset⟩
      | .ok db2 =>
        ⟨db2, p.chapter,
          (if p.chapter ≠ st.currentChapter then 0 else st.chapterOffset) +
            (a.length : ℚ) / 32000⟩ := by
  unfold pipeStep
  rw [hsy]
  by_cases hch : p.chapter ≠ st.currentChapter
  · simp only [if_pos hch]
  · simp only [if_neg hch]
    push_neg at hch
    cases hsv : save_page_audio st.db a p.id ((a.length : ℚ) / 32000) st.chapterOffset with
    | error e2 => rw [hch]
    | ok db2 => rw [hch]

/-- The result of a `save_page_audio` whose page lookup succeeds. -/
theorem save_page_audio_eq (db : List PageRow) (audio : List ℕ) (pid : ℕ)
    (dur off : ℚ) (page : PageRow)
    (hfind : db.find? (fun q => q.id == pid) = some page) :
    save_page_audio db audio pid dur off =
      .ok (db.map (fun q =>
        if q.id == pid then
          { q with audioBlob := some audio, audioDuration := some dur,
                   audioStartOffset := some (if off = 0 then
                     match lastPrevPage db page with
                     | some lastPg =>
                       lastPg.audioStartOffset.getD 0 + lastPg.audioDuration.getD 0
                     | none => off
                   else off) }
        else q)) := by
  unfold save_page_audio
  rw [hfind]

/-- `expectedEntry` never changes the id of a row. -/
theorem expectedEntry_id (synth : PageRow → Except String (List ℕ))
    (done : List PageRow) (q : PageRow) : (expectedEntry synth done q).id = q.id := by
  unfold expectedEntry
  split <;> rfl

/-- `expectedEntry` never changes the book of a row. -/
theorem expectedEntry_bookId (synth : PageRow → Except String (List ℕ))
    (done : List PageRow) (q : PageRow) :
    (expectedEntry synth done q).bookId = q.bookId := by
  unfold expectedEntry
  split <;> rfl

/-- `expectedEntry` never changes the page number of a row. -/
theorem expectedEntry_pageNumber (synth : PageRow → Except String (List ℕ))
    (done : List PageRow) (q : PageRow) :
    (expectedEntry synth done q).pageNumber = q.pageNumber := by
  unfold expectedEntry
  split <;> rfl

/-- `expectedEntry` never changes the chapter of a row. -/
theorem expectedEntry_chapter (synth : PageRow → Except String (List ℕ))
    (done : List PageRow) (q : PageRow) :
    (expectedEntry synth done q).chapter = q.chapter := by
  unfold expectedEntry
  split <;> rfl

/-- `chSum` over an empty prefix. -/
theorem chSum_nil (synth : PageRow → Except String (List ℕ)) (ch : Option String) :
    chSum synth [] ch = 0 := rfl

/-- `chSum` splits over append. -/
theorem chSum_append (synth : PageRow → Except String (List ℕ))
    (l r : List PageRow) (ch : Option String) :
    chSum synth (l ++ r) ch = chSum synth l ch + chSum synth r ch := by
  unfold chSum
  rw [List.filter_append, List.map_append, List.sum_append]

/-- `chSum` of a singleton. -/
theorem chSum_singleton (synth : PageRow → Except String (List ℕ))
    (p : PageRow) (ch : Option String) :
    chSum synth [p] ch =
      if synthOk synth p && p.chapter == ch then durOf synth p else 0 := by
  unfold chSum
  by_cases h : (synthOk synth p && p.chapter == ch) = true
  · rw [if_pos h]
    simp [List.filter, h]
  · rw [if_neg h]
    rw [Bool.not_eq_true] at h
    simp [List.filter, h]

/-- Durations are nonnegative. -/
theorem durOf_nonneg (synth : PageRow → Except String (List ℕ)) (p : PageRow) :
    0 ≤ durOf synth p := by
  unfold durOf
  cases synth p with
  | error e => exact le_refl 0
  | ok a => positivity

/-- Chapter sums are nonnegative. -/
theorem chSum_nonneg (synth : PageRow → Except String (List ℕ))
    (l : List PageRow) (ch : Option String) : 0 ≤ chSum synth l ch := by
  unfold chSum
  apply List.sum_nonneg
  intro x hx
  rcases List.mem_map.mp hx with ⟨q, _, rfl⟩
  exact durOf_nonneg synth q

/-- `chSum` vanishes on a prefix containing no page of the chapter. -/
theorem chSum_eq_zero_of_no_chapter (synth : PageRow → Except String (List ℕ))
    (l : List PageRow) (ch : Option String) (h : ∀ q ∈ l, q.chapter ≠ ch) :
    chSum synth l ch = 0 := by
  unfold chSum
  have : l.filter (fun q => synthOk synth q && q.chapter == ch) = [] := by
    rw [List.filter_eq_nil_iff]
    intro q hq
    simp [h q hq]
  rw [this]
  rfl

/-- `takeWhile` ignores everything past a failing element. -/
theorem takeWhileAppend {α : Type} (p : α → Bool) :
    ∀ (l : List α) (r : List α), (∃ x ∈ l, p x = false) →
      (l ++ r).takeWhile p = l.takeWhile p := by
  intro l
  induction l with
  | nil => intro r h; rcases h with ⟨x, hx, _⟩; cases hx
  | cons a l' ih =>
    intro r h
    by_cases ha : p a = true
    · rw [List.cons_append, List.takeWhile_cons_of_pos ha, List.takeWhile_cons_of_pos ha]
      rcases h with ⟨x, hx, hpx⟩
      rcases List.mem_cons.mp hx with rfl | hx'
      · rw [ha] at hpx; cases hpx
      · rw [ih r ⟨x, hx', hpx⟩]
    · rw [Bool.not_eq_true] at ha
      rw [List.cons_append, List.takeWhile_cons_of_neg (by simp [ha]),
        List.takeWhile_cons_of_neg (by simp [ha])]

/-- `takeWhile` with an all-true prefix followed by a failing element. -/
theorem takeWhileAllThenFail {α : Type} (p : α → Bool) :
    ∀ (l : List α) (y : α) (r : List α), (∀ x ∈ l, p x = true) → p y = false →
      (l ++ y :: r).takeWhile p = l := by
  intro l
  induction l with
  | nil =>
    intro y r _ hy
    rw [List.nil_append, List.takeWhile_cons_of_neg (by simp [hy])]
  | cons a l' ih =>
    intro y r hall hy
    rw [List.cons_append, List.takeWhile_cons_of_pos (hall a (List.mem_cons_self a l')),
      ih y r (fun x hx => hall x (List.mem_cons_of_mem a hx)) hy]

/-- Folding `maxStep` over a `≤`-sorted list from an accumulator below the
list yields its last element. -/
theorem maxStepFold_sorted :
    ∀ (l : List PageRow) (r : PageRow),
      (∀ q ∈ l, r.pageNumber ≤ q.pageNumber) →
      l.Pairwise (fun a b => a.pageNumber ≤ b.pageNumber) →
      l.foldl maxStep (some r) = some (l.getLastD r) := by
  intro l
  induction l with
  | nil => intro r _ _; rfl
  | cons q l' ih =>
    intro r hr hpw
    rw [List.foldl_cons]
    have h1 : r.pageNumber ≤ q.pageNumber := hr q (List.mem_cons_self q l')
    have hstep : maxStep (some r) q = some q := by
      show (if r.pageNumber ≤ q.pageNumber then some q else some r) = some q
      rw [if_pos h1]
    rw [hstep, List.getLastD_cons]
    exact ih q (fun x hx => (List.pairwise_cons.mp hpw).1 x hx)
      (List.pairwise_cons.mp hpw).2

/-- On a strictly page-number-sorted list, `maxByPageNumber` is the last
element — exactly the `prev_pages[-1]` of the ordered query. -/
theorem maxByPageNumber_sorted (l : List PageRow)
    (h : l.Pairwise (fun a b => a.pageNumber < b.pageNumber)) :
    maxByPageNumber l = l.getLast? := by
  cases l with
  | nil => rfl
  | cons q l' =>
    unfold maxByPageNumber
    rw [List.foldl_cons]
    have hstep : maxStep none q = some q := rfl
    rw [hstep]
    rw [maxStepFold_sorted l' q
      (fun x hx => le_of_lt ((List.pairwise_cons.mp h).1 x hx))
      (((List.pairwise_cons.mp h).2).imp le_of_lt)]
    rw [getLast?_cons_getLastD]

/-- The last element of a filtered list splits the list into a prefix, the
element, and a suffix containing no further matching element. -/
theorem filterGetLastSplit {α : Type} (p : α → Bool) :
    ∀ (l : List α) (a : α), (l.filter p).getLast? = some a →
      ∃ pre suf, l = pre ++ a :: suf ∧ suf.filter p = [] ∧ p a = true := by
  intro l
  induction l with
  | nil => intro a h; cases h
  | cons x l' ih =>
    intro a h
    cases hf' : l'.filter p with
    | nil =>
      by_cases hx : p x = true
      · rw [List.filter_cons_of_pos hx, hf'] at h
        cases h
        exact ⟨[], l', rfl, hf', hx⟩
      · rw [Bool.not_eq_true] at hx
        rw [List.filter_cons_of_neg (by simp [hx]), hf'] at h
        cases h
    | cons y t =>
      have htail : ((x :: l').filter p).getLast? = (l'.filter p).getLast? := by
        by_cases hx : p x = true
        · rw [List.filter_cons_of_pos hx, hf', List.getLast?_cons_cons]
        · rw [Bool.not_eq_true] at hx
          rw [List.filter_cons_of_neg (by simp [hx])]
      rw [htail] at h
      rcases ih a h with ⟨pre, suf, rfl, hsuf, hpa⟩
      exact ⟨x :: pre, suf, rfl, hsuf, hpa⟩

/-- In an id-distinct table, a member is determined by its id. -/
theorem eq_of_mem_of_id_eq :
    ∀ (db : List PageRow), (db.map (fun q => q.id)).Nodup →
      ∀ p ∈ db, ∀ q ∈ db, q.id = p.id → q = p := by
  intro db
  induction db with
  | nil => intro _ p hp; cases hp
  | cons x rest ih =>
    intro hnd p hp q hq hqp
    rw [List.map_cons, List.nodup_cons] at hnd
    rcases List.mem_cons.mp hp with rfl | hp' <;> rcases List.mem_cons.mp hq with rfl | hq'
    · rfl
    · exact absurd (hqp ▸ List.mem_map_of_mem (fun r => r.id) hq') hnd.1
    · exact absurd (hqp ▸ List.mem_map_of_mem (fun r => r.id) hp') hnd.1
    · exact ih hnd.2 p hp' q hq' hqp

/-- The penultimate-index reading of `getLast?`. -/
theorem getD_of_getLast? (l : List PageRow) (a : PageRow) (h : l.getLast? = some a) :
    l.getD (l.length - 1) dummyPage = a := by
  have hne : l ≠ [] := by intro hnil; rw [hnil] at h; cases h
  have hlt : l.length - 1 < l.length := by
    cases l with
    | nil => exact absurd rfl hne
    | cons x t => simp only [List.length_cons]; omega
  rw [List.getLast?_eq_getLast l hne] at h
  cases h
  rw [List.getD_eq_getElem l dummyPage hlt]
  exact (List.getLast_eq_getElem l hne).symm

/-- Consequence of chapter contiguity: when the next page's label differs
from the label of the last processed page, no processed page carries the
next page's label. -/
theorem contig_no_earlier (db0 done todo' : List PageRow) (p : PageRow)
    (hsplit : db0 = done ++ p :: todo')
    (hcontig : ChaptersContiguous db0 dummyPage)
    (hchange : p.chapter ≠ lastChapter done) :
    ∀ q ∈ done, q.chapter ≠ p.chapter := by
  intro q hq hqp
  rcases List.mem_iff_getElem.mp hq with ⟨i, hi, hgi⟩
  have hne : done ≠ [] := List.ne_nil_of_mem hq
  obtain ⟨lastd, hlast⟩ : ∃ x, done.getLast? = some x := by
    cases hd : done with
    | nil => exact absurd hd hne
    | cons x t =>
      subst hd
      exact ⟨t.getLastD x, getLast?_cons_getLastD t x⟩
  have hlastne : lastd.chapter ≠ p.chapter := by
    unfold lastChapter at hchange
    rw [hlast] at hchange
    exact fun hc => hchange hc.symm
  have hpos : 1 ≤ done.length := List.length_pos.mpr hne
  have hgq : db0.getD i dummyPage = q := by
    rw [hsplit, List.getD_append _ _ _ _ hi, List.getD_eq_getElem _ _ hi, hgi]
  have hgp : db0.getD done.length dummyPage = p := by
    rw [hsplit, List.getD_append_right _ _ _ _ (le_refl done.length)]
    simp
  have hglast : db0.getD (done.length - 1) dummyPage = lastd := by
    rw [hsplit, List.getD_append _ _ _ _ (by omega)]
    exact getD_of_getLast? done lastd hlast
  have hlen : done.length < db0.length := by
    rw [hsplit, List.length_append, List.length_cons]
    omega
  by_cases hi2 : i = done.length - 1
  · rw [hi2, hglast] at hgq
    exact hlastne (hgq ▸ hqp)
  · have hstep := hcontig done.length hlen (done.length - 1) (by omega) i (by omega)
    rw [hgq, hgp, hglast] at hstep
    exact hlastne ((hstep hqp).trans hqp)

/-- In an id-distinct split table, the processed prefix contains no row with
the current page's id. -/
theorem notMemIds (db0 done todo' : List PageRow) (p : PageRow)
    (hsplit : db0 = done ++ p :: todo')
    (hids : (db0.map (fun q => q.id)).Nodup) :
    ∀ r ∈ done, r.id ≠ p.id := by
  intro r hr hrp
  rw [hsplit, List.map_append, List.nodup_append] at hids
  exact hids.2.2 (List.mem_map_of_mem (fun q => q.id) hr)
    (by rw [hrp]; exact List.mem_map_of_mem (fun q => q.id) (List.mem_cons_self p todo'))

/-- A page not yet processed is untouched by `expectedEntry`. -/
theorem expectedEntry_not_done (synth : PageRow → Except String (List ℕ))
    (done : List PageRow) (p : PageRow) (hnot : ∀ r ∈ done, r.id ≠ p.id) :
    expectedEntry synth done p = p := by
  unfold expectedEntry
  have hany : done.any (fun r => r.id == p.id) = false := by
    rw [List.any_eq_false]
    intro r hr
    simp [hnot r hr]
  rw [hany]
  simp

/-- Looking the current page up in the expected table returns the page
itself. -/
theorem find?_map_expected_self (synth : PageRow → Except String (List ℕ))
    (done : List PageRow) (db0 : List PageRow) (p : PageRow)
    (hids : (db0.map (fun q => q.id)).Nodup) (hp : p ∈ db0)
    (hnot : ∀ r ∈ done, r.id ≠ p.id) :
    (db0.map (expectedEntry synth done)).find? (fun q => q.id == p.id) = some p := by
  rw [find?_map_id (expectedEntry synth done) (expectedEntry_id synth done) p.id db0,
    find?_self_of_nodup db0 hids p hp]
  rw [Option.map_some']
  rw [expectedEntry_not_done synth done p hnot]

/-- Appending the processed page does not change the expected entry of any
other page. -/
theorem expectedEntry_append_ne (synth : PageRow → Except String (List ℕ))
    (done : List PageRow) (p q : PageRow) (hne : p.id ≠ q.id) :
    expectedEntry synth (done ++ [p]) q = expectedEntry synth done q := by
  unfold expectedEntry
  have hany : (done ++ [p]).any (fun r => r.id == q.id)
      = done.any (fun r => r.id == q.id) := by
    rw [List.any_append]
    simp [hne]
  rw [hany]
  by_cases hc : (done.any (fun r => r.id == q.id) && synthOk synth q) = true
  · rw [if_pos hc, if_pos hc]
    rcases List.any_eq_true.mp (Bool.and_elim_left hc) with ⟨r, hr, hrq⟩
    rw [beq_iff_eq] at hrq
    rw [takeWhileAppend _ done [p] ⟨r, hr, by simp [hrq]⟩]
  · rw [if_neg hc, if_neg hc]

/-- The expected entry of the page just processed, when its synthesis
succeeded. -/
theorem expectedEntry_append_self_ok (synth : PageRow → Except String (List ℕ))
    (done : List PageRow) (p : PageRow) (a : List ℕ) (hsy : synth p = .ok a)
    (hnot : ∀ r ∈ done, r.id ≠ p.id) :
    expectedEntry synth (done ++ [p]) p =
      { p with audioBlob := some a,
               audioDuration := some ((a.length : ℚ) / 32000),
               audioStartOffset := some (chSum synth done p.chapter) } := by
  unfold expectedEntry
  have hok : synthOk synth p = true := by unfold synthOk; rw [hsy]
  have hany : (done ++ [p]).any (fun r => r.id == p.id) = true := by
    rw [List.any_append]
    simp
  rw [hany, hok]
  have htw : (done ++ [p]).takeWhile (fun r => r.id ≠ p.id) = done := by
    have h := takeWhileAllThenFail (fun r => decide (r.id ≠ p.id)) done p []
      (fun x hx => by simp [hnot x hx]) (by simp)
    simpa using h
  rw [if_pos (show (true && true) = true from rfl)]
  rw [htw]
  unfold synthAudio durOf
  rw [hsy]

/-- The expected entry of the page just processed, when its synthesis
failed. -/
theorem expectedEntry_append_self_fail (synth : PageRow → Except String (List ℕ))
    (done : List PageRow) (p : PageRow) (e : String) (hsy : synth p = .error e) :
    expectedEntry synth (done ++ [p]) p = p := by
  unfold expectedEntry
  have hok : synthOk synth p = false := by unfold synthOk; rw [hsy]
  rw [hok]
  simp

/-- A page whose synthesis failed is untouched by `expectedEntry`. -/
theorem expectedEntry_not_ok (synth : PageRow → Except String (List ℕ))
    (done : List PageRow) (q : PageRow) (h : synthOk synth q = false) :
    expectedEntry synth done q = q := by
  unfold expectedEntry
  rw [h]
  simp

/-- The `prev_pages` filter over the expected table restricts, under
sortedness and a single book, to the same-chapter pages of the processed
prefix. -/
theorem lastPrev_filter_eq (synth : PageRow → Except String (List ℕ)) (bid : ℕ)
    (db0 done todo' : List PageRow) (p : PageRow)
    (hsplit : db0 = done ++ p :: todo')
    (hpn : db0.Pairwise (fun a b => a.pageNumber < b.pageNumber))
    (hbook : ∀ q ∈ db0, q.bookId = bid) :
    (db0.map (expectedEntry synth done)).filter (fun q =>
        q.bookId == p.bookId && q.chapter == p.chapter &&
          decide (q.pageNumber < p.pageNumber))
      = (done.filter (fun q => q.chapter == p.chapter)).map
          (expectedEntry synth done) := by
  rw [List.filter_map]
  congr 1
  have hcomp2 : db0.filter ((fun q => q.bookId == p.bookId && q.chapter == p.chapter &&
      decide (q.pageNumber < p.pageNumber)) ∘ expectedEntry synth done)
      = db0.filter (fun q => q.bookId == p.bookId && q.chapter == p.chapter &&
        decide (q.pageNumber < p.pageNumber)) := by
    apply List.filter_congr
    intro q _
    simp only [Function.comp_apply, expectedEntry_bookId, expectedEntry_chapter,
      expectedEntry_pageNumber]
  rw [hcomp2]
  have hpn' := hsplit ▸ hpn
  rw [hsplit, List.filter_append]
  have hrest : (p :: todo').filter (fun q => q.bookId == p.bookId &&
      q.chapter == p.chapter && decide (q.pageNumber < p.pageNumber)) = [] := by
    rw [List.filter_eq_nil_iff]
    intro q hq
    rcases List.mem_cons.mp hq with rfl | hq'
    · simp
    · have hlt : p.pageNumber < q.pageNumber := by
        have h2 := (List.pairwise_append.mp hpn').2.1
        exact (List.pairwise_cons.mp h2).1 q hq'
      simp
      intro _ _
      omega
  rw [hrest, List.append_nil]
  apply List.filter_congr
  intro q hq
  have hqdb : q ∈ db0 := by rw [hsplit]; exact List.mem_append_left _ hq
  have hqb : q.bookId = p.bookId := by
    rw [hbook q hqdb, hbook p (by rw [hsplit]; exact List.mem_append_right _ (List.mem_cons_self p todo'))]
  have hqlt : q.pageNumber < p.pageNumber :=
    (List.pairwise_append.mp hpn').2.2 q hq p (List.mem_cons_self p todo')
  simp [hqb, hqlt]

/-- When the accumulated same-chapter sum is zero, the override computed by
`save_page_audio` from the last earlier same-chapter page is also zero. -/
theorem lastPrev_zero (synth : PageRow → Except String (List ℕ)) (bid : ℕ)
    (db0 done todo' : List PageRow) (p : PageRow)
    (hsplit : db0 = done ++ p :: todo')
    (hids : (db0.map (fun q => q.id)).Nodup)
    (hpn : db0.Pairwise (fun a b => a.pageNumber < b.pageNumber))
    (hbook : ∀ q ∈ db0, q.bookId = bid)
    (hfresh : ∀ q ∈ db0, q.audioDuration = none ∧ q.audioStartOffset = none)
    (hS0 : chSum synth done p.chapter = 0) :
    (match lastPrevPage (db0.map (expectedEntry synth done)) p with
     | some lastPg => lastPg.audioStartOffset.getD 0 + lastPg.audioDuration.getD 0
     | none => (0 : ℚ)) = 0 := by
  unfold lastPrevPage
  rw [lastPrev_filter_eq synth bid db0 done todo' p hsplit hpn hbook]
  have hpn' := hsplit ▸ hpn
  have hsort_done : done.Pairwise (fun a b => a.pageNumber < b.pageNumber) :=
    (List.pairwise_append.mp hpn').1
  have hsort_dfc : (done.filter (fun q => q.chapter == p.chapter)).Pairwise
      (fun a b => a.pageNumber < b.pageNumber) :=
    hsort_done.sublist (List.filter_sublist _)
  have hsort_map : ((done.filter (fun q => q.chapter == p.chapter)).map
      (expectedEntry synth done)).Pairwise
      (fun a b => a.pageNumber < b.pageNumber) := by
    rw [List.pairwise_map]
    apply hsort_dfc.imp
    intro a b hab
    rw [expectedEntry_pageNumber, expectedEntry_pageNumber]
    exact hab
  rw [maxByPageNumber_sorted _ hsort_map]
  rw [List.getLast?_map]
  cases hq0 : (done.filter (fun q => q.chapter == p.chapter)).getLast? with
  | none => rfl
  | some q0 =>
    rw [Option.map_some']
    have hq0mem : q0 ∈ done.filter (fun q => q.chapter == p.chapter) :=
      memOfGetLast? _ q0 hq0
    have hq0done : q0 ∈ done := List.mem_of_mem_filter hq0mem
    have hq0db : q0 ∈ db0 := by
      rw [hsplit]; exact List.mem_append_left _ hq0done
    have hq0ch : q0.chapter = p.chapter := by
      have := List.of_mem_filter hq0mem
      rwa [beq_iff_eq] at this
    rcases filterGetLastSplit _ done q0 hq0 with ⟨pre, suf, hdone_split, hsuf_nil, _⟩
    have hsuf_noch : ∀ q ∈ suf, q.chapter ≠ p.chapter := by
      intro q hqsuf hqch
      have : q ∈ suf.filter (fun r => r.chapter == p.chapter) :=
        List.mem_filter.mpr ⟨hqsuf, by simp [hqch]⟩
      rw [hsuf_nil] at this
      cases this
    have hsum_split : chSum synth pre p.chapter + durOf synth q0 = 0 := by
      have h0 := hS0
      rw [hdone_split] at h0
      rw [show pre ++ q0 :: suf = pre ++ ([q0] ++ suf) from by simp] at h0
      rw [chSum_append, chSum_append] at h0
      rw [chSum_eq_zero_of_no_chapter synth suf p.chapter hsuf_noch] at h0
      by_cases hok0 : synthOk synth q0 = true
      · rw [chSum_singleton, if_pos (by simp [hok0, hq0ch])] at h0
        linarith
      · rw [Bool.not_eq_true] at hok0
        have hd0 : durOf synth q0 = 0 := by
          unfold durOf
          unfold synthOk at hok0
          cases hsy0 : synth q0 with
          | error e => rfl
          | ok a => rw [hsy0] at hok0; cases hok0
        rw [chSum_singleton] at h0
        rw [if_neg (by simp [hok0])] at h0
        rw [hd0]
        linarith
    by_cases hok0 : synthOk synth q0 = true
    · have hids_done : (done.map (fun q => q.id)).Nodup := by
        rw [hsplit, List.map_append, List.nodup_append] at hids
        exact hids.1
      have hnotpre : ∀ r ∈ pre, r.id ≠ q0.id :=
        notMemIds done pre suf q0 hdone_split hids_done
      have hexp : expectedEntry synth done q0 =
          { q0 with audioBlob := some (synthAudio synth q0),
                    audioDuration := some (durOf synth q0),
                    audioStartOffset := some (chSum synth pre q0.chapter) } := by
        unfold expectedEntry
        have hany : done.any (fun r => r.id == q0.id) = true := by
          rw [List.any_eq_true]
          exact ⟨q0, hq0done, by simp⟩
        rw [hany, hok0]
        rw [if_pos (show (true && true) = true from rfl)]
        have htw : done.takeWhile (fun r => r.id ≠ q0.id) = pre := by
          rw [hdone_split]
          have h := takeWhileAllThenFail (fun r => decide (r.id ≠ q0.id)) pre q0 suf
            (fun x hx => by simp [hnotpre x hx]) (by simp)
          simpa using h
        rw [htw]
      rw [hexp]
      show chSum synth pre q0.chapter + durOf synth q0 = 0
      rw [hq0ch]
      exact hsum_split
    · rw [Bool.not_eq_true] at hok0
      rw [expectedEntry_not_ok synth done q0 hok0]
      rcases hfresh q0 hq0db with ⟨hd, ho⟩
      show q0.audioStartOffset.getD 0 + q0.audioDuration.getD 0 = 0
      rw [hd, ho]
      norm_num

/-- `pipeStep_fail_eq` with the state components exposed. -/
theorem pipeStep_fail_eqc (synth : PageRow → Except String (List ℕ))
    (A : List PageRow) (B : Option String) (C : ℚ) (p : PageRow) (e : String)
    (hsy : synth p = .error e) :
    pipeStep synth ⟨A, B, C⟩ p =
      ⟨A, p.chapter, if p.chapter ≠ B then 0 else C⟩ :=
  pipeStep_fail_eq synth ⟨A, B, C⟩ p e hsy

/-- `pipeStep_ok_eq` with the state components exposed. -/
theorem pipeStep_ok_eqc (synth : PageRow → Except String (List ℕ))
    (A : List PageRow) (B : Option String) (C : ℚ) (p : PageRow) (a : List ℕ)
    (hsy : synth p = .ok a) :
    pipeStep synth ⟨A, B, C⟩ p =
      match save_page_audio A a p.id ((a.length : ℚ) / 32000)
          (if p.chapter ≠ B then 0 else C) with
      | .error _ => ⟨A, p.chapter, if p.chapter ≠ B then 0 else C⟩
      | .ok db2 => ⟨db2, p.chapter,
          (if p.chapter ≠ B then 0 else C) + (a.length : ℚ) / 32000⟩ :=
  pipeStep_ok_eq synth ⟨A, B, C⟩ p a hsy

/-- One pipeline step carries the expected-table invariant from a processed
prefix `done` to `done ++ [p]`: under id-distinctness, strict page-number
sorting, a single book, fresh audio columns and contiguous chapter labels,
the state after processing `p` is again described by `expectedEntry`,
`lastChapter` and `chSum`. -/
theorem pipeInv_step (synth : PageRow → Except String (List ℕ)) (bid : ℕ)
    (db0 done todo' : List PageRow) (p : PageRow)
    (hsplit : db0 = done ++ p :: todo')
    (hids : (db0.map (fun q => q.id)).Nodup)
    (hpn : db0.Pairwise (fun a b => a.pageNumber < b.pageNumber))
    (hbook : ∀ q ∈ db0, q.bookId = bid)
    (hfresh : ∀ q ∈ db0, q.audioDuration = none ∧ q.audioStartOffset = none)
    (hcontig : ChaptersContiguous db0 dummyPage) :
    pipeStep synth
      ⟨db0.map (expectedEntry synth done), lastChapter done,
        chSum synth done (lastChapter done)⟩ p
      = ⟨db0.map (expectedEntry synth (done ++ [p])), lastChapter (done ++ [p]),
          chSum synth (done ++ [p]) (lastChapter (done ++ [p]))⟩ := by
  have hp0 : p ∈ db0 := by
    rw [hsplit]
    exact List.mem_append_right _ (List.mem_cons_self p todo')
  have hnot : ∀ r ∈ done, r.id ≠ p.id := notMemIds db0 done todo' p hsplit hids
  have hlastch : lastChapter (done ++ [p]) = p.chapter := by
    unfold lastChapter
    rw [List.getLast?_concat]
  have hoff1 : (if p.chapter ≠ lastChapter done then (0 : ℚ)
      else chSum synth done (lastChapter done)) = chSum synth done p.chapter := by
    by_cases hch : p.chapter ≠ lastChapter done
    · rw [if_pos hch]
      exact (chSum_eq_zero_of_no_chapter synth done p.chapter
        (contig_no_earlier db0 done todo' p hsplit hcontig hch)).symm
    · rw [if_neg hch]
      push_neg at hch
      rw [hch]
  have hdb_ne : ∀ q ∈ db0, q.id ≠ p.id →
      expectedEntry synth (done ++ [p]) q = expectedEntry synth done q :=
    fun q _ hq => expectedEntry_append_ne synth done p q (fun h => hq h.symm)
  cases hsy : synth p with
  | error e =>
    rw [pipeStep_fail_eqc synth _ _ _ p e hsy]
    rw [PipeState.mk.injEq]
    refine ⟨?_, hlastch.symm, ?_⟩
    · apply List.map_congr_left
      intro q hq
      by_cases hqid : q.id = p.id
      · rw [eq_of_mem_of_id_eq db0 hids p hp0 q hq hqid]
        rw [expectedEntry_not_done synth done p hnot,
          expectedEntry_append_self_fail synth done p e hsy]
      · exact (hdb_ne q hq hqid).symm
    · have hok : synthOk synth p = false := by unfold synthOk; rw [hsy]
      rw [hoff1, hlastch, chSum_append, chSum_singleton,
        if_neg (by simp [hok]), add_zero]
  | ok a =>
    have hfind := find?_map_expected_self synth done db0 p hids hp0 hnot
    rw [pipeStep_ok_eqc synth _ _ _ p a hsy]
    rw [save_page_audio_eq (db0.map (expectedEntry synth done)) a p.id
      ((a.length : ℚ) / 32000)
      (if p.chapter ≠ lastChapter done then 0 else chSum synth done (lastChapter done))
      p hfind]
    have hoffv : (if (if p.chapter ≠ lastChapter done then (0 : ℚ)
        else chSum synth done (lastChapter done)) = 0 then
          match lastPrevPage (db0.map (expectedEntry synth done)) p with
          | some lastPg =>
            lastPg.audioStartOffset.getD 0 + lastPg.audioDuration.getD 0
          | none => (if p.chapter ≠ lastChapter done then (0 : ℚ)
              else chSum synth done (lastChapter done))
        else (if p.chapter ≠ lastChapter done then (0 : ℚ)
            else chSum synth done (lastChapter done)))
        = chSum synth done p.chapter := by
      by_cases hz : (if p.chapter ≠ lastChapter done then (0 : ℚ)
          else chSum synth done (lastChapter done)) = 0
      · rw [if_pos hz]
        have hS0 : chSum synth done p.chapter = 0 := by rw [← hoff1, hz]
        rw [hz]
        rw [lastPrev_zero synth bid db0 done todo' p hsplit hids hpn hbook hfresh hS0]
        rw [hS0]
      · rw [if_neg hz]
        exact hoff1
    rw [PipeState.mk.injEq]
    refine ⟨?_, hlastch.symm, ?_⟩
    · rw [List.map_map]
      apply List.map_congr_left
      intro q hq
      simp only [Function.comp_apply]
      by_cases hqid : q.id = p.id
      · rw [eq_of_mem_of_id_eq db0 hids p hp0 q hq hqid]
        rw [expectedEntry_not_done synth done p hnot]
        rw [if_pos (by simp : (p.id == p.id) = true)]
        rw [hoffv]
        rw [expectedEntry_append_self_ok synth done p a hsy hnot]
      · rw [if_neg (by simp [expectedEntry_id, hqid])]
        exact (hdb_ne q hq hqid).symm
    · have hok : synthOk synth p = true := by unfold synthOk; rw [hsy]
      have hdur : durOf synth p = (a.length : ℚ) / 32000 := by
        unfold durOf
        rw [hsy]
      rw [hoff1, hlastch, chSum_append, chSum_singleton,
        if_pos (by simp [hok]), hdur]

/-- Folding the pipeline step over a remaining suffix `todo` of the page
table carries the expected-table invariant to the fully processed table. -/
theorem pipeInv_fold (synth : PageRow → Except String (List ℕ)) (bid : ℕ)
    (db0 : List PageRow)
    (hids : (db0.map (fun q => q.id)).Nodup)
    (hpn : db0.Pairwise (fun a b => a.pageNumber < b.pageNumber))
    (hbook : ∀ q ∈ db0, q.bookId = bid)
    (hfresh : ∀ q ∈ db0, q.audioDuration = none ∧ q.audioStartOffset = none)
    (hcontig : ChaptersContiguous db0 dummyPage) :
    ∀ todo done : List PageRow, db0 = done ++ todo →
      todo.foldl (pipeStep synth)
        ⟨db0.map (expectedEntry synth done), lastChapter done,
          chSum synth done (lastChapter done)⟩
      = ⟨db0.map (expectedEntry synth db0), lastChapter db0,
          chSum synth db0 (lastChapter db0)⟩ := by
  intro todo
  induction todo with
  | nil =>
    intro done hsplit
    rw [List.append_nil] at hsplit
    subst hsplit
    rfl
  | cons p todo' ih =>
    intro done hsplit
    rw [List.foldl_cons]
    rw [pipeInv_step synth bid db0 done todo' p hsplit hids hpn hbook hfresh hcontig]
    exact ih (done ++ [p]) (by rw [List.append_assoc]; exact hsplit)

/-- C9 (amended).  For a fresh single-book page table whose ids are
distinct, whose page numbers are strictly increasing, and whose chapter
labels are contiguous, `audio_entire_book` succeeds and persists, for every
page whose synthesis succeeds, an `audio_start_offset` equal to the sum of
the durations of the earlier successfully synthesized pages of the same
chapter (and an `audio_duration` of `len(audio)/32000`). -/
theorem c9_amended (synth : PageRow → Except String (List ℕ)) (bid total : ℕ)
    (db0 : List PageRow)
    (htot : total ≤ 999998)
    (hbook : ∀ q ∈ db0, q.bookId = bid)
    (hpnle : ∀ q ∈ db0, q.pageNumber ≤ total)
    (hids : (db0.map (fun q => q.id)).Nodup)
    (hpn : db0.Pairwise (fun a b => a.pageNumber < b.pageNumber))
    (hfresh : ∀ q ∈ db0, q.audioDuration = none ∧ q.audioStartOffset = none)
    (hcontig : ChaptersContiguous db0 dummyPage) :
    ∃ db1, audio_entire_book [{ id := bid, totalPages := total }] db0 synth bid
        = .ok db1 ∧
      ∀ p ∈ db0, synthOk synth p = true →
        db1.find? (fun q => q.id == p.id) = some
          { p with audioBlob := some (synthAudio synth p),
                   audioDuration := some (durOf synth p),
                   audioStartOffset :=
                     some (chSum synth (db0.takeWhile (fun r => r.id ≠ p.id))
                       p.chapter) } := by
  refine ⟨db0.map (expectedEntry synth db0), ?_, ?_⟩
  · simp only [audio_entire_book]
    rw [fetch_all_pages bid total db0 htot hbook hpnle]
    have hinit : (⟨db0, none, 0⟩ : PipeState) =
        ⟨db0.map (expectedEntry synth []), lastChapter [],
          chSum synth [] (lastChapter [])⟩ := by
      rw [PipeState.mk.injEq]
      refine ⟨?_, rfl, (chSum_nil synth (lastChapter [])).symm⟩
      have hmap : db0.map (expectedEntry synth []) = db0.map (fun q => q) :=
        List.map_congr_left (fun q _ => expectedEntry_not_done synth [] q
          (fun r hr => absurd hr (List.not_mem_nil r)))
      rw [hmap, List.map_id']
    rw [hinit]
    rw [pipeInv_fold synth bid db0 hids hpn hbook hfresh hcontig db0 [] rfl]
  · intro p hp hok
    rw [find?_map_id (expectedEntry synth db0)
      (fun q => expectedEntry_id synth db0 q) p.id db0]
    rw [find?_self_of_nodup db0 hids p hp]
    rw [Option.map_some']
    unfold expectedEntry
    rw [if_pos (by
      rw [Bool.and_eq_true]
      exact ⟨List.any_eq_true.mpr ⟨p, hp, by simp⟩, hok⟩)]

/-- Counterexample to C9 as stated.  On four fresh pages whose chapter
labels read A, B, A, A (unit-length audio for every page), the run persists
`1/32000` as page 3's `audio_start_offset` — the accumulator restarted at
the last chapter change — while the sum of the durations of the previously
succeeded chapter-A pages of the run (pages 0 and 2) is `2/32000`. -/
theorem c9_counterexample :
    audio_entire_book [{ id := 0, totalPages := 3 }] c9pages c9synth 0
      = .ok c9expected ∧
    ((c9expected.find? (fun q => q.id == 3)).map (fun q => q.audioStartOffset))
      = some (some (1/32000 : ℚ)) ∧
    chSum c9synth (c9pages.takeWhile (fun r => r.id ≠ 3)) (some "A") = 2/32000 ∧
    (1/32000 : ℚ) ≠ 2/32000 := by
  refine ⟨?_, by rfl, ?_, by norm_num⟩
  · have hfetch : get_pages_from_book [{ id := 0, totalPages := 3 }] c9pages 0 0 999999
        = c9pages :=
      fetch_all_pages 0 3 c9pages (by omega)
        (by intro p hp; simp only [c9pages] at hp; fin_cases hp <;> rfl)
        (by intro p hp; simp only [c9pages] at hp; fin_cases hp <;> simp)
    simp only [audio_entire_book, hfetch]
    norm_num [pipeStep, save_page_audio, lastPrevPage, maxByPageNumber, maxStep, c9pages,
      c9synth, c9expected, Option.some_ne_none, Option.some.injEq,
      show ("B":String) ≠ "A" from by decide, show ("A":String) ≠ "B" from by decide,
      List.find?_cons_of_pos, List.find?_cons_of_neg,
      List.filter_cons_of_pos, List.filter_cons_of_neg]
  · norm_num [c9pages, c9synth, chSum, synthOk, durOf, List.takeWhile, List.filter,
      List.map]

/-- Witness for the amended C9: on two fresh contiguous chapter-A pages the
pipeline succeeds and persists for each page the duration sum of its earlier
same-chapter succeeded pages as its start offset. -/
theorem c9_witness :
    ∃ db1, audio_entire_book [{ id := 0, totalPages := 1 }] c9contigPages c9synth 0
        = .ok db1 ∧
      ∀ p ∈ c9contigPages, synthOk c9synth p = true →
        db1.find? (fun q => q.id == p.id) = some
          { p with audioBlob := some (synthAudio c9synth p),
                   audioDuration := some (durOf c9synth p),
                   audioStartOffset :=
                     some (chSum c9synth
                       (c9contigPages.takeWhile (fun r => r.id ≠ p.id)) p.chapter) } :=
  c9_amended c9synth 0 1 c9contigPages
    (by omega)
    (by intro q hq; simp only [c9contigPages] at hq; fin_cases hq <;> rfl)
    (by intro q hq; simp only [c9contigPages] at hq; fin_cases hq <;> simp)
    (by decide)
    (by decide)
    (by intro q hq; simp only [c9contigPages] at hq; fin_cases hq <;> exact ⟨rfl, rfl⟩)
    (by decide)
